import Mathlib

set_option linter.unusedSectionVars false

/-!
Verification of the STARK prover pipeline (`src/prover.rs`) of the
lambdaworks Cairo prover fork, against its natural-language specification.

Polynomials are shallowly embedded as coefficient lists (index `i` holds the
coefficient of `X^i`) over an arbitrary field `F`.  Components of the
repository that live outside `src/` (the FFT engine, the transcript, the
Merkle tree, the AIR capability, the FRI module, the `Domain` constructor and
the verifier cross-check) are modelled from the specification; every such
definition is marked `Modelled from the spec:` in its doc comment.  All other
definitions are direct translations of the Rust source.
-/

namespace StarkSpec

/-! ### Coefficient-list polynomials -/

variable {F : Type} [Field F] [DecidableEq F] {RawTrace PubInput RAPCh : Type}

/-- Evaluation of a coefficient list at a point (Horner form). -/
def polyEval (p : List F) (x : F) : F :=
  p.foldr (fun a acc => a + x * acc) 0

/-- Pointwise sum of two coefficient lists (the longer tail is kept). -/
def polyAdd : List F → List F → List F
  | [], q => q
  | p, [] => p
  | a :: p, b :: q => (a + b) :: polyAdd p q

/-- Negation of every coefficient. -/
def polyNeg (p : List F) : List F := p.map (fun a => -a)

/-- Difference of two coefficient lists. -/
def polySub (p q : List F) : List F := polyAdd p (polyNeg q)

/-- Multiplication of a coefficient list by a scalar. -/
def polyScale (c : F) (p : List F) : List F := p.map (fun a => c * a)

/-- Multiplication by the linear factor `X - a`. -/
def mulXSubC (a : F) (q : List F) : List F := polySub (0 :: q) (polyScale a q)

/-- Product of the linear factors `X - a` over a list of nodes. -/
def nodal (xs : List F) : List F := xs.foldr (fun a q => mulXSubC a q) [1]

/-- Newton-form interpolation through the points `(xs i, ys i)`.

Modelled from the spec: the external polynomial engine's
`interpolate(domain, values)` capability, returning the unique polynomial of
degree `< n` through `n` given points. -/
def interpolate : List F → List F → List F
  | x0 :: xs, y0 :: ys =>
    let p := interpolate xs ys
    let prod := nodal xs
    let c := (y0 - polyEval p x0) / polyEval prod x0
    polyAdd p (polyScale c prod)
  | _, _ => []

/-- Product of two coefficient lists. -/
def polyMul : List F → List F → List F
  | [], _ => []
  | a :: p, q => polyAdd (polyScale a q) (0 :: polyMul p q)

/-- Quotient of `p` by the linear factor `X - c` (synthetic division,
remainder discarded).

Modelled from the spec: the external polynomial engine's division by a linear
factor, whose only legitimate use is the near-vanishing case. -/
def divLinear (p : List F) (c : F) : List F :=
  (p.foldr (fun a acc => (a + c * acc.1, acc.1 :: acc.2)) ((0 : F), [])).2.tail

/-- Even-index coefficients of a coefficient list. -/
def evens : List F → List F
  | [] => []
  | [a] => [a]
  | a :: _ :: t => a :: evens t

/-- Odd-index coefficients of a coefficient list. -/
def odds : List F → List F
  | [] => []
  | [_] => []
  | _ :: b :: t => b :: odds t

/-- Even/odd decomposition `H(x) = H1(x^2) + x * H2(x^2)`.

Modelled from the spec: the external polynomial engine's
`even_odd_decomposition()`. -/
def evenOddDecomposition (p : List F) : List F × List F := (evens p, odds p)

/-! ### Arithmetic helpers (kernel-computable logarithms, subsampling) -/

/-- Fuel-driven floor base-2 logarithm. -/
def log2f : ℕ → ℕ → ℕ
  | 0, _ => 0
  | fuel + 1, n => if n ≤ 1 then 0 else 1 + log2f fuel (n / 2)

/-- Floor base-2 logarithm (`log2 (2^k) = k`). -/
def log2 (n : ℕ) : ℕ := log2f n n

/-- Ceiling base-2 logarithm. -/
def clog2 (n : ℕ) : ℕ := if n ≤ 1 then 0 else log2 (n - 1) + 1

/-- Least power of two that is `≥ n` (and `≥ 1`), as in Rust's
`usize::next_power_of_two`. -/
def nextPow2 (n : ℕ) : ℕ := 2 ^ clog2 n

/-- Every `s`-th element of a list, starting from index 0, as in Rust's
`Iterator::step_by`. -/
def stepBy (s : ℕ) (l : List F) : List F :=
  (List.range ((l.length + s - 1) / s)).map (fun i => l.getD (i * s) 0)

/-! ### The LDE evaluation primitive -/

/-- Size of the evaluation grid returned by the FFT engine. -/
def fftEvalSize (p : List F) (blowup domain_size : ℕ) : ℕ :=
  blowup * max domain_size (nextPow2 p.length)

/-- Modelled from the spec: the external FFT engine's
`evaluate_offset_fft(blowup, Some(domain_size), offset)`, which evaluates `p`
on the coset `offset * ω^i` of the requested size, enlarged to the next power
of two accommodating `p`'s coefficients ("subsample if the FFT returns a
denser grid than requested").  `ω k` is the field's primitive root of unity of
order `2^k`. -/
def evaluate_offset_fft (ω : ℕ → F) (p : List F) (blowup domain_size : ℕ) (offset : F) :
    List F :=
  let n := fftEvalSize p blowup domain_size
  (List.range n).map (fun i => polyEval p (offset * (ω (log2 n)) ^ i))

/-- Direct translation of `evaluate_polynomial_on_lde_domain` from
`src/prover.rs`: run the offset FFT, then subsample with the integer stride
`evaluations.len() / (domain_size * blowup_factor)` when the grid is denser
than requested. -/
def evaluate_polynomial_on_lde_domain (ω : ℕ → F) (p : List F)
    (blowup_factor domain_size : ℕ) (offset : F) : List F :=
  let evaluations := evaluate_offset_fft ω p blowup_factor domain_size offset
  let step := evaluations.length / (domain_size * blowup_factor)
  if step = 1 then evaluations else stepBy step evaluations

/-! ### Domain -/

/-- The evaluation-domain record owned by the round orchestrator. -/
structure DomainM (F : Type) where
  root_order : ℕ
  lde_roots_of_unity_coset : List F
  lde_root_order : ℕ
  interpolation_domain_size : ℕ
  blowup_factor : ℕ
  coset_offset : F
  trace_primitive_root : F
deriving Repr

/-- Modelled from the spec: `Domain::new` (outside `src/`), pinned by the
in-source test `test_domain_constructor`: `root_order = log2(trace_length)`,
`lde_root_order = log2(trace_length * blowup_factor)`, the trace primitive
root is the LDE primitive root raised to `blowup_factor`, and
`lde_roots_of_unity_coset[i] = coset_offset * primitive_root^i`. -/
def mkDomain (ω : ℕ → F) (trace_length blowup : ℕ) (offset : F) : DomainM F :=
  { root_order := log2 trace_length
    lde_root_order := log2 (trace_length * blowup)
    interpolation_domain_size := trace_length
    blowup_factor := blowup
    coset_offset := offset
    trace_primitive_root := (ω (log2 (trace_length * blowup))) ^ blowup
    lde_roots_of_unity_coset :=
      (List.range (trace_length * blowup)).map
        (fun i => offset * (ω (log2 (trace_length * blowup))) ^ i) }

/-! ### The adversarial truncated interpolation -/

/-- The truncated-interpolation degree bound chosen in
`interp_from_num_denom`: the legitimate bound `|LDE| / blowup_factor` when
`evil` is set or `bad_trace` is unset, else the looser `|LDE| / 2`. -/
def targetDeg (domain : DomainM F) (evil bad_trace : Bool) : ℕ :=
  if evil || !bad_trace then
    domain.lde_roots_of_unity_coset.length / domain.blowup_factor
  else
    domain.lde_roots_of_unity_coset.length / 2

/-- Direct translation of `interp_from_num_denom` from `src/prover.rs`:
evaluate numerator and denominator on the LDE coset, divide pointwise, and
interpolate only the first `target_deg` points back into a polynomial.  The
Rust function's trailing `assert_eq!` self-check is modelled by the separate
predicate `interpAssertOk`. -/
def interp_from_num_denom (ω : ℕ → F) (num denom : List F) (domain : DomainM F)
    (poly_sanity_check : List F) (evil bad_trace : Bool) : List F :=
  let _ := poly_sanity_check
  let target_deg := targetDeg domain evil bad_trace
  let num_evals := evaluate_polynomial_on_lde_domain ω num
    domain.blowup_factor domain.interpolation_domain_size domain.coset_offset
  let denom_evals := evaluate_polynomial_on_lde_domain ω denom
    domain.blowup_factor domain.interpolation_domain_size domain.coset_offset
  let evals := List.zipWith (fun a b => a / b) num_evals denom_evals
  interpolate (domain.lde_roots_of_unity_coset.take target_deg) (evals.take target_deg)

/-- The coefficient-equality assertion at the end of `interp_from_num_denom`
(executed only when `evil` is unset): Rust's
`for (ci, c) in result.coefficients.iter().zip(&poly_sanity_check.coefficients)
 { assert_eq!(ci, c); }`. -/
def interpAssertOk (result poly_sanity_check : List F) : Prop :=
  ∀ pr ∈ result.zip poly_sanity_check, pr.1 = pr.2

/-! ### Transcript -/

/-- Typed error returned by the prover. -/
inductive ProvingError where
  | WrongParameter (msg : String)
deriving DecidableEq, Repr

/-- Decidable equality for `Except`, used to evaluate the model on concrete
inputs. -/
instance exceptDecEq {ε α : Type} [DecidableEq ε] [DecidableEq α] :
    DecidableEq (Except ε α)
  | Except.ok a, Except.ok b =>
    if h : a = b then isTrue (by rw [h])
    else isFalse (fun c => h (by cases c; rfl))
  | Except.ok _, Except.error _ => isFalse (fun c => Except.noConfusion c)
  | Except.error _, Except.ok _ => isFalse (fun c => Except.noConfusion c)
  | Except.error e, Except.error f =>
    if h : e = f then isTrue (by rw [h])
    else isFalse (fun c => h (by cases c; rfl))

/-- One observable interaction with the Fiat-Shamir transcript. -/
inductive TEvent (F : Type) where
  | append (x : F)
  | batchSample (n : ℕ)
  | sampleField
  | sampleZ
  | rapSample
  | sampleIndex
deriving DecidableEq, Repr

/-- Modelled from the spec: the transcript capability (external), recorded as
the ordered log of its appends and challenge requests. -/
structure TState (F : Type) where
  log : List (TEvent F)
deriving DecidableEq, Repr

/-- Record one transcript interaction. -/
def TState.push (ts : TState F) (e : TEvent F) : TState F := ⟨ts.log ++ [e]⟩

/-- Direct translation of `round_0_transcript_initialization`: a
deterministically seeded fresh transcript (no external entropy). -/
def round_0_transcript_initialization (F : Type) : TState F := ⟨[]⟩

/-! ### Frames and trace tables -/

/-- The out-of-domain evaluation frame: a row-major table with `n_cols`
columns. -/
structure FrameM (F : Type) where
  data : List F
  n_cols : ℕ
deriving DecidableEq, Repr

/-- Number of rows of a frame. -/
def FrameM.num_rows (fr : FrameM F) : ℕ := fr.data.length / fr.n_cols

/-- Row `i` of a frame. -/
def FrameM.get_row (fr : FrameM F) (i : ℕ) : List F :=
  (fr.data.drop (i * fr.n_cols)).take fr.n_cols

/-- Modelled from the spec: `Frame::get_trace_evaluations` — every trace
polynomial evaluated at `z * g^k` for every transition-frame offset `k`
(one row per offset, one entry per trace polynomial). -/
def getTraceEvaluations (trace_polys : List (List F)) (z : F) (offsets : List ℕ)
    (primitive_root : F) : List (List F) :=
  offsets.map (fun k => trace_polys.map (fun t => polyEval t (z * primitive_root ^ k)))

/-- Modelled from the spec: `TraceTable::compute_trace_polys` — one
interpolating polynomial per column, in column order, over the column's
natural root-of-unity domain. -/
def compute_trace_polys (ω : ℕ → F) (cols : List (List F)) : List (List F) :=
  cols.map (fun col =>
    interpolate ((List.range col.length).map (fun i => (ω (log2 col.length)) ^ i)) col)

/-! ### Merkle commitments -/

/-- An opening proof, abstracted to the position it authenticates. -/
structure MerkleProofM where
  pos : ℕ
deriving DecidableEq, Repr

/-- Modelled from the spec: `MerkleTree::get_proof_by_pos(index)`, which
fails (`None`) out of bounds.  A tree is identified with its leaf vector. -/
def mkProof (leaves : List F) (i : ℕ) : Option MerkleProofM :=
  if i < leaves.length then some ⟨i⟩ else none

/-! ### External capabilities -/

/-- The AIR context consumed from the external AIR capability. -/
structure AirContext (F : Type) where
  trace_length : ℕ
  trace_columns : ℕ
  transition_offsets : List ℕ
  num_transition_constraints : ℕ
  blowup_factor : ℕ
  fri_number_of_queries : ℕ
  coset_offset : F

/-- Modelled from the spec: every capability the prover consumes but whose
implementation lives outside `src/` — the AIR (trace construction, RAP
challenges, auxiliary trace, constraint evaluation, the verifier's exact OOD
cross-check), the Merkle hasher, and the transcript's deterministic
challenge-derivation functions (each a pure function of the transcript log,
reflecting Fiat-Shamir determinism). -/
structure Externals (F RawTrace PubInput RAPCh : Type) where
  ω : ℕ → F
  context : AirContext F
  build_main_trace : RawTrace → PubInput → Except ProvingError (List (List F))
  rap_fn : List (TEvent F) → RAPCh
  build_auxiliary_trace : List (List F) → RAPCh → PubInput → List (List F)
  composition_poly : List (List F) → List (List F) → List (F × F) → List (F × F) →
    RAPCh → PubInput → List F
  ood_exact : FrameM F → DomainM F → PubInput → F → RAPCh → List (F × F) →
    List (F × F) → F
  merkle_root : List F → F
  sample_field_fn : List (TEvent F) → F
  batch_fn : List (TEvent F) → ℕ → List F
  z_fn : List (TEvent F) → F
  iota_fn : List (TEvent F) → ℕ
  query_out : List (TEvent F) → List (List F)

/-- Modelled from the spec: `batch_sample_challenges(n, transcript)` — sample
`n` challenges derived from the current transcript state. -/
def batch_sample_challenges (ext : Externals F RawTrace PubInput RAPCh) (n : ℕ)
    (ts : TState F) : List F × TState F :=
  (ext.batch_fn ts.log n, ts.push (TEvent.batchSample n))

/-- Modelled from the spec: `transcript_to_field(transcript)` — sample one
field challenge. -/
def transcript_to_field (ext : Externals F RawTrace PubInput RAPCh) (ts : TState F) :
    F × TState F :=
  (ext.sample_field_fn ts.log, ts.push TEvent.sampleField)

/-- Modelled from the spec: `sample_z_ood` — sample the out-of-domain point
`z`, constrained away from the trace and LDE domains. -/
def sample_z_ood (ext : Externals F RawTrace PubInput RAPCh) (ts : TState F) :
    F × TState F :=
  (ext.z_fn ts.log, ts.push TEvent.sampleZ)

/-- Modelled from the spec: `air.build_rap_challenges(transcript)`. -/
def build_rap_challenges (ext : Externals F RawTrace PubInput RAPCh) (ts : TState F) :
    RAPCh × TState F :=
  (ext.rap_fn ts.log, ts.push TEvent.rapSample)

/-! ### Round results and the proof object -/

/-- Result of round 1 (`Round1` in `src/prover.rs`). -/
structure Round1M (F R : Type) where
  trace_polys : List (List F)
  lde_trace : List (List F)
  lde_trace_merkle_trees : List (List F)
  lde_trace_merkle_roots : List F
  rap_challenges : R
deriving DecidableEq, Repr

/-- Result of round 2 (`Round2` in `src/prover.rs`). -/
structure Round2M (F : Type) where
  composition_poly_even : List F
  lde_composition_poly_even_evaluations : List F
  composition_poly_even_merkle_tree : List F
  composition_poly_even_root : F
  composition_poly_odd : List F
  lde_composition_poly_odd_evaluations : List F
  composition_poly_odd_merkle_tree : List F
  composition_poly_odd_root : F
deriving DecidableEq, Repr

/-- Result of round 3 (`Round3` in `src/prover.rs`). -/
structure Round3M (F : Type) where
  trace_ood_frame_evaluations : FrameM F
  composition_poly_even_ood_evaluation : F
  composition_poly_odd_ood_evaluation : F
deriving DecidableEq, Repr

/-- The openings of the DEEP polynomial's constituents at the query index. -/
structure DeepPolynomialOpeningsM (F : Type) where
  lde_composition_poly_even_proof : Option MerkleProofM
  lde_composition_poly_even_evaluation : F
  lde_composition_poly_odd_proof : Option MerkleProofM
  lde_composition_poly_odd_evaluation : F
  lde_trace_merkle_proofs : List (Option MerkleProofM)
  lde_trace_evaluations : List F
deriving DecidableEq, Repr

/-- Result of round 4 (`Round4` in `src/prover.rs`). -/
structure Round4M (F : Type) where
  fri_last_value : F
  fri_layers_merkle_roots : List F
  deep_poly_openings : DeepPolynomialOpeningsM F
  query_list : List (List F)
deriving DecidableEq, Repr

/-- The final proof artifact (`StarkProof`). -/
structure StarkProofM (F : Type) where
  lde_trace_merkle_roots : List F
  trace_ood_frame_evaluations : FrameM F
  composition_poly_even_root : F
  composition_poly_even_ood_evaluation : F
  composition_poly_odd_root : F
  composition_poly_odd_ood_evaluation : F
  fri_layers_merkle_roots : List F
  fri_last_value : F
  query_list : List (List F)
  deep_poly_openings : DeepPolynomialOpeningsM F
deriving DecidableEq, Repr

/-! ### Round 1 -/

/-- Direct translation of `batch_commit`: one Merkle tree (identified with
its leaf vector) per evaluation vector, plus the roots in order. -/
def batch_commit (ext : Externals F RawTrace PubInput RAPCh)
    (vectors : List (List F)) : List (List F) × List F :=
  (vectors, vectors.map ext.merkle_root)

/-- Direct translation of `interpolate_and_commit`: interpolate each column,
evaluate on the LDE coset, commit per column, and append each root to the
transcript in column order. -/
def interpolate_and_commit (ext : Externals F RawTrace PubInput RAPCh)
    (trace : List (List F)) (domain : DomainM F) (ts : TState F) :
    List (List F) × List (List F) × List (List F) × List F × TState F :=
  let trace_polys := compute_trace_polys ext.ω trace
  let lde_trace_evaluations := trace_polys.map (fun poly =>
    evaluate_polynomial_on_lde_domain ext.ω poly domain.blowup_factor
      domain.interpolation_domain_size domain.coset_offset)
  let committed := batch_commit ext lde_trace_evaluations
  let ts := committed.2.foldl (fun acc root => acc.push (TEvent.append root)) ts
  (trace_polys, lde_trace_evaluations, committed.1, committed.2, ts)

/-- Direct translation of `round_1_randomized_air_with_preprocessing`: build
and commit the main trace, sample RAP challenges, build and (when non-empty)
commit the auxiliary trace after the main one. -/
def round_1 (ext : Externals F RawTrace PubInput RAPCh) (domain : DomainM F)
    (raw_trace : RawTrace) (public_input : PubInput) (ts : TState F) :
    Except ProvingError (Round1M F RAPCh × TState F) := do
  let main_trace ← ext.build_main_trace raw_trace public_input
  let m := interpolate_and_commit ext main_trace domain ts
  let trace_polys := m.1
  let evaluations := m.2.1
  let lde_trace_merkle_trees := m.2.2.1
  let lde_trace_merkle_roots := m.2.2.2.1
  let ts := m.2.2.2.2
  let rapR := build_rap_challenges ext ts
  let rap_challenges := rapR.1
  let ts := rapR.2
  let aux_trace := ext.build_auxiliary_trace main_trace rap_challenges public_input
  let r :=
    if aux_trace.flatten.isEmpty then
      (trace_polys, evaluations, lde_trace_merkle_trees, lde_trace_merkle_roots, ts)
    else
      let a := interpolate_and_commit ext aux_trace domain ts
      (trace_polys ++ a.1, evaluations ++ a.2.1, lde_trace_merkle_trees ++ a.2.2.1,
        lde_trace_merkle_roots ++ a.2.2.2.1, a.2.2.2.2)
  pure ({ trace_polys := r.1
          lde_trace := r.2.1
          lde_trace_merkle_trees := r.2.2.1
          lde_trace_merkle_roots := r.2.2.2.1
          rap_challenges := rap_challenges }, r.2.2.2.2)

/-! ### Round 2 -/

/-- Direct translation of `round_2_compute_composition_polynomial`: evaluate
the folded constraints into `H` (the constraint evaluator is external, so `H`
comes from the `composition_poly` capability), split `H` into even/odd
halves, evaluate both on the LDE domain and commit both. -/
def round_2_compute_composition_polynomial (ext : Externals F RawTrace PubInput RAPCh)
    (domain : DomainM F) (round_1_result : Round1M F RAPCh) (public_input : PubInput)
    (transition_coeffs boundary_coeffs : List (F × F)) : Round2M F :=
  let composition_poly := ext.composition_poly round_1_result.trace_polys
    round_1_result.lde_trace transition_coeffs boundary_coeffs
    round_1_result.rap_challenges public_input
  let parts := evenOddDecomposition composition_poly
  let lde_composition_poly_even_evaluations := evaluate_polynomial_on_lde_domain ext.ω
    parts.1 domain.blowup_factor domain.interpolation_domain_size domain.coset_offset
  let lde_composition_poly_odd_evaluations := evaluate_polynomial_on_lde_domain ext.ω
    parts.2 domain.blowup_factor domain.interpolation_domain_size domain.coset_offset
  let committed := batch_commit ext
    [lde_composition_poly_even_evaluations, lde_composition_poly_odd_evaluations]
  { composition_poly_even := parts.1
    lde_composition_poly_even_evaluations
    composition_poly_even_merkle_tree := committed.1.getD 0 []
    composition_poly_even_root := committed.2.getD 0 0
    composition_poly_odd := parts.2
    lde_composition_poly_odd_evaluations
    composition_poly_odd_merkle_tree := committed.1.getD 1 []
    composition_poly_odd_root := committed.2.getD 1 0 }

/-- The round-2 section of `prove`: sample the four challenge batches
(boundary alphas, boundary betas, transition alphas, transition betas), run
round 2, then append the two composition-poly roots (`H1` then `H2`). -/
def round2Segment (ext : Externals F RawTrace PubInput RAPCh) (domain : DomainM F)
    (round_1_result : Round1M F RAPCh) (public_input : PubInput) (ts : TState F) :
    List (F × F) × List (F × F) × Round2M F × TState F :=
  let ba := batch_sample_challenges ext round_1_result.trace_polys.length ts
  let bb := batch_sample_challenges ext round_1_result.trace_polys.length ba.2
  let ta := batch_sample_challenges ext ext.context.num_transition_constraints bb.2
  let tb := batch_sample_challenges ext ext.context.num_transition_constraints ta.2
  let boundary_coeffs := ba.1.zip bb.1
  let transition_coeffs := ta.1.zip tb.1
  let round_2_result := round_2_compute_composition_polynomial ext domain round_1_result
    public_input transition_coeffs boundary_coeffs
  let ts := tb.2.push (TEvent.append round_2_result.composition_poly_even_root)
  let ts := ts.push (TEvent.append round_2_result.composition_poly_odd_root)
  (boundary_coeffs, transition_coeffs, round_2_result, ts)

/-! ### Round 3 -/

/-- Direct translation of
`round_3_evaluate_polynomials_in_out_of_domain_element`: build the OOD frame;
in the honest path evaluate the committed `H1, H2` at `z^2`, in the
adversarial path (`evil`) substitute the verifier's algebraically-exact
recomputation for `H1(z^2)` and force `H2(z^2)` to zero. -/
def round_3_evaluate_polynomials_in_out_of_domain_element
    (ext : Externals F RawTrace PubInput RAPCh) (domain : DomainM F)
    (public_input : PubInput) (round_1_result : Round1M F RAPCh)
    (round_2_result : Round2M F) (z : F) (rap_challenges : RAPCh)
    (boundary_coeffs transition_coeffs : List (F × F)) (evil : Bool) : Round3M F :=
  let ood_trace_evaluations := getTraceEvaluations round_1_result.trace_polys z
    ext.context.transition_offsets domain.trace_primitive_root
  let trace_ood_frame_evaluations : FrameM F :=
    ⟨ood_trace_evaluations.flatten, round_1_result.trace_polys.length⟩
  let z_squared := z * z
  let evaluations :=
    if evil then
      (ext.ood_exact trace_ood_frame_evaluations domain public_input z rap_challenges
        boundary_coeffs transition_coeffs, (0 : F))
    else
      (polyEval round_2_result.composition_poly_even z_squared,
        polyEval round_2_result.composition_poly_odd z_squared)
  { trace_ood_frame_evaluations
    composition_poly_even_ood_evaluation := evaluations.1
    composition_poly_odd_ood_evaluation := evaluations.2 }

/-- Append every element of every frame row, rows in index order, to the
transcript (the round-3 double loop in `prove`). -/
def appendFrameRows (ts : TState F) (fr : FrameM F) : TState F :=
  (List.range fr.num_rows).foldl
    (fun acc i => (fr.get_row i).foldl (fun a e => a.push (TEvent.append e)) acc) ts

/-- The round-3 section of `prove`: sample `z`, run round 3, then append
`H1(z^2)`, `H2(z^2)` and the frame entries in row-major order. -/
def round3Segment (ext : Externals F RawTrace PubInput RAPCh) (domain : DomainM F)
    (public_input : PubInput) (round_1_result : Round1M F RAPCh)
    (round_2_result : Round2M F) (boundary_coeffs transition_coeffs : List (F × F))
    (evil : Bool) (ts : TState F) : Round3M F × F × TState F :=
  let zr := sample_z_ood ext ts
  let round_3_result := round_3_evaluate_polynomials_in_out_of_domain_element ext domain
    public_input round_1_result round_2_result zr.1 round_1_result.rap_challenges
    boundary_coeffs transition_coeffs evil
  let ts := zr.2.push (TEvent.append round_3_result.composition_poly_even_ood_evaluation)
  let ts := ts.push (TEvent.append round_3_result.composition_poly_odd_ood_evaluation)
  let ts := appendFrameRows ts round_3_result.trace_ood_frame_evaluations
  (round_3_result, zr.1, ts)

/-! ### Round 4: the DEEP polynomial and FRI -/

/-- Direct translation of `compute_deep_composition_poly`: the H1 and H2
quotient terms, one quotient term per (trace polynomial, frame offset) pair,
each also recomputed through the truncated interpolation; when `evil` is set
the interpolated forgery (`h_1_from_interp + h_2_from_interp + trace_terms`)
replaces the honest algebraic combination. -/
def compute_deep_composition_poly (ext : Externals F RawTrace PubInput RAPCh)
    (domain : DomainM F) (trace_polys : List (List F)) (round_2_result : Round2M F)
    (round_3_result : Round3M F) (z primitive_root : F)
    (gamma gamma_p : F) (trace_terms_gammas : List F) (evil bad_trace : Bool) : List F :=
  let h_1 := round_2_result.composition_poly_even
  let h_1_z2 := round_3_result.composition_poly_even_ood_evaluation
  let h_2 := round_2_result.composition_poly_odd
  let h_2_z2 := round_3_result.composition_poly_odd_ood_evaluation
  let z_squared := z * z
  let h_1_num := polyScale gamma (polySub h_1 [h_1_z2])
  let h_1_term := divLinear h_1_num z_squared
  let h_1_from_interp := interp_from_num_denom ext.ω h_1_num [-z_squared, 1] domain
    h_1_term evil bad_trace
  let h_2_num := polyScale gamma_p (polySub h_2 [h_2_z2])
  let h_2_term := divLinear h_2_num z_squared
  let h_2_from_interp := interp_from_num_denom ext.ω h_2_num [-z_squared, 1] domain
    h_2_term evil bad_trace
  let transition_offsets := ext.context.transition_offsets
  let trace_frame_evaluations := getTraceEvaluations trace_polys z transition_offsets
    primitive_root
  let nframes := trace_frame_evaluations.length
  let npairs := (trace_frame_evaluations.zip transition_offsets).length
  let trace_terms := (List.range trace_polys.length).foldl (fun acc i =>
    (List.range npairs).foldl (fun acc2 j =>
      let t_j := trace_polys.getD i []
      let t_j_z := (trace_frame_evaluations.getD j []).getD i 0
      let z_shifted := z * primitive_root ^ (transition_offsets.getD j 0)
      let poly := divLinear (polySub t_j [t_j_z]) z_shifted
      polyAdd acc2 (polyScale (trace_terms_gammas.getD (i * nframes + j) 0) poly)) acc) []
  let trace_terms_from_interp := (List.range trace_polys.length).foldl (fun acc i =>
    (List.range npairs).foldl (fun acc2 j =>
      let t_j := trace_polys.getD i []
      let t_j_z := (trace_frame_evaluations.getD j []).getD i 0
      let z_shifted := z * primitive_root ^ (transition_offsets.getD j 0)
      let poly := divLinear (polySub t_j [t_j_z]) z_shifted
      let poly_from_interp := interp_from_num_denom ext.ω (polySub t_j [t_j_z])
        [-z_shifted, 1] domain poly evil bad_trace
      polyAdd acc2 (polyScale (trace_terms_gammas.getD (i * nframes + j) 0)
        poly_from_interp)) acc) []
  let _ := trace_terms_from_interp
  let deep := polyAdd (polyAdd h_1_term h_2_term) trace_terms
  let deep_from_interp := polyAdd (polyAdd h_1_from_interp h_2_from_interp) trace_terms
  if evil then deep_from_interp else deep

/-- One FRI fold: combine the even and odd halves with the folding
coefficient (`p_next = even + beta * odd`). -/
def foldPoly (p : List F) (beta : F) : List F :=
  List.zipWith (fun e o => e + beta * o) (evens p) (odds p ++ [0])

/-- The iterated part of the FRI commit phase: sample a folding coefficient,
fold, commit the folded layer's evaluations over the halved domain, append
its root; returns the final polynomial, final domain, the layer roots and the
transcript. -/
def friLoop (ext : Externals F RawTrace PubInput RAPCh) :
    ℕ → List F → List F → TState F → List F × List F × List F × TState F
  | 0, p, dom, ts => (p, dom, [], ts)
  | n + 1, p, dom, ts =>
    let beta := ext.sample_field_fn ts.log
    let ts := ts.push TEvent.sampleField
    let p2 := foldPoly p beta
    let dom2 := (dom.take (dom.length / 2)).map (fun x => x * x)
    let root := ext.merkle_root (dom2.map (polyEval p2))
    let ts := ts.push (TEvent.append root)
    let r := friLoop ext n p2 dom2 ts
    (r.1, r.2.1, root :: r.2.2.1, r.2.2.2)

/-- Modelled from the spec: `fri_commit_phase` (the FRI module is outside
`src/`): commit layer 0, iteratively sample a folding coefficient, fold the
polynomial (halving the represented domain), commit each layer's root before
the next coefficient is sampled, and finally send the last folded value in
the clear.  Its first argument is the layer count passed at the call site in
round 4. -/
def friCommitPhase (ext : Externals F RawTrace PubInput RAPCh) (number_layers : ℕ)
    (p0 : List F) (dom : List F) (ts : TState F) : F × List F × TState F :=
  let root0 := ext.merkle_root (dom.map (polyEval p0))
  let ts := ts.push (TEvent.append root0)
  let r := friLoop ext (number_layers - 1) p0 dom ts
  let beta := ext.sample_field_fn r.2.2.2.log
  let ts := r.2.2.2.push TEvent.sampleField
  let last_poly := foldPoly r.1 beta
  let last_value := last_poly.getD 0 0
  let ts := ts.push (TEvent.append last_value)
  (last_value, root0 :: r.2.2.1, ts)

/-- Modelled from the spec: `fri_query_phase` — derive the pseudorandom base
index `iota_0` and the per-query decommitments from the transcript. -/
def fri_query_phase (ext : Externals F RawTrace PubInput RAPCh) (ts : TState F) :
    List (List F) × ℕ × TState F :=
  (ext.query_out ts.log, ext.iota_fn ts.log, ts.push TEvent.sampleIndex)

/-- Direct translation of `open_deep_composition_poly`: reduce the requested
index modulo the LDE domain length, then open `H1`, `H2` and every trace
column at that single shared index. -/
def open_deep_composition_poly (domain : DomainM F) (round_1_result : Round1M F RAPCh)
    (round_2_result : Round2M F) (index_to_open : ℕ) : DeepPolynomialOpeningsM F :=
  let index := index_to_open % domain.lde_roots_of_unity_coset.length
  { lde_composition_poly_even_proof :=
      mkProof round_2_result.composition_poly_even_merkle_tree index
    lde_composition_poly_even_evaluation :=
      round_2_result.lde_composition_poly_even_evaluations.getD index 0
    lde_composition_poly_odd_proof :=
      mkProof round_2_result.composition_poly_odd_merkle_tree index
    lde_composition_poly_odd_evaluation :=
      round_2_result.lde_composition_poly_odd_evaluations.getD index 0
    lde_trace_merkle_proofs :=
      round_1_result.lde_trace_merkle_trees.map (fun tree => mkProof tree index)
    lde_trace_evaluations :=
      round_1_result.lde_trace.map (fun col => col.getD index 0) }

/-- Direct translation of
`round_4_compute_and_run_fri_on_the_deep_composition_polynomial`: sample the
DEEP coefficients, build the DEEP polynomial, run the FRI commit phase with
`domain.root_order` layers over the LDE coset, run the query phase, and open
the DEEP constituents at the query index. -/
def round_4_compute_and_run_fri_on_the_deep_composition_polynomial
    (ext : Externals F RawTrace PubInput RAPCh) (domain : DomainM F)
    (round_1_result : Round1M F RAPCh) (round_2_result : Round2M F)
    (round_3_result : Round3M F) (z : F) (ts : TState F) (evil bad_trace : Bool) :
    Round4M F × TState F :=
  let g0 := transcript_to_field ext ts
  let g1 := transcript_to_field ext g0.2
  let tg := batch_sample_challenges ext
    (ext.context.transition_offsets.length * ext.context.trace_columns) g1.2
  let deep_composition_poly := compute_deep_composition_poly ext domain
    round_1_result.trace_polys round_2_result round_3_result z
    domain.trace_primitive_root g0.1 g1.1 tg.1 evil bad_trace
  let fr := friCommitPhase ext domain.root_order deep_composition_poly
    domain.lde_roots_of_unity_coset tg.2
  let q := fri_query_phase ext fr.2.2
  let deep_poly_openings := open_deep_composition_poly domain round_1_result
    round_2_result q.2.1
  ({ fri_last_value := fr.1
     fri_layers_merkle_roots := fr.2.1
     deep_poly_openings
     query_list := q.1 }, q.2.2)

/-! ### The prover -/

/-- Direct translation of `prove`, additionally exposing the final transcript
state (the Rust function keeps the transcript internal). -/
def proveT (ext : Externals F RawTrace PubInput RAPCh) (trace : RawTrace)
    (public_input : PubInput) (evil bad_trace : Bool) :
    Except ProvingError (StarkProofM F × TState F) := do
  let domain := mkDomain ext.ω ext.context.trace_length ext.context.blowup_factor
    ext.context.coset_offset
  let ts := round_0_transcript_initialization F
  let r1 ← round_1 ext domain trace public_input ts
  let s2 := round2Segment ext domain r1.1 public_input r1.2
  let boundary_coeffs := s2.1
  let transition_coeffs := s2.2.1
  let round_2_result := s2.2.2.1
  let s3 := round3Segment ext domain public_input r1.1 round_2_result boundary_coeffs
    transition_coeffs evil s2.2.2.2
  let round_3_result := s3.1
  let s4 := round_4_compute_and_run_fri_on_the_deep_composition_polynomial ext domain
    r1.1 round_2_result round_3_result s3.2.1 s3.2.2 evil bad_trace
  pure ({ lde_trace_merkle_roots := r1.1.lde_trace_merkle_roots
          trace_ood_frame_evaluations := round_3_result.trace_ood_frame_evaluations
          composition_poly_even_root := round_2_result.composition_poly_even_root
          composition_poly_even_ood_evaluation :=
            round_3_result.composition_poly_even_ood_evaluation
          composition_poly_odd_root := round_2_result.composition_poly_odd_root
          composition_poly_odd_ood_evaluation :=
            round_3_result.composition_poly_odd_ood_evaluation
          fri_layers_merkle_roots := s4.1.fri_layers_merkle_roots
          fri_last_value := s4.1.fri_last_value
          query_list := s4.1.query_list
          deep_poly_openings := s4.1.deep_poly_openings }, s4.2)

/-- The public entry point: `prove` returns only the proof object. -/
def prove (ext : Externals F RawTrace PubInput RAPCh) (trace : RawTrace)
    (public_input : PubInput) (evil bad_trace : Bool) :
    Except ProvingError (StarkProofM F) :=
  (proveT ext trace public_input evil bad_trace).map Prod.fst

end StarkSpec

/-! ### A concrete field with kernel-computable inversion

`K17` wraps `Fin 17`; its inverse is `x ^ 15` (Fermat), so every field
operation reduces inside the kernel, which `ZMod 17` inversion does not.
It instantiates the generic development in witnesses and counterexamples. -/

structure K17 where
  val : Fin 17
deriving DecidableEq, Repr

namespace K17

instance : Fact (Nat.Prime 17) := ⟨by norm_num⟩

/-- Embedding of `K17` into `ZMod 17` (definitionally `Fin 17`). -/
def emb (a : K17) : ZMod 17 := a.val

instance : Zero K17 := ⟨⟨(0 : ZMod 17)⟩⟩
instance : One K17 := ⟨⟨(1 : ZMod 17)⟩⟩
instance : Add K17 := ⟨fun a b => ⟨(a.emb + b.emb : ZMod 17)⟩⟩
instance : Mul K17 := ⟨fun a b => ⟨(a.emb * b.emb : ZMod 17)⟩⟩
instance : Neg K17 := ⟨fun a => ⟨(-a.emb : ZMod 17)⟩⟩
instance : Sub K17 := ⟨fun a b => ⟨(a.emb - b.emb : ZMod 17)⟩⟩
instance : Inv K17 := ⟨fun a => ⟨(a.emb ^ 15 : ZMod 17)⟩⟩
instance : Div K17 := ⟨fun a b => ⟨(a.emb * b.emb ^ 15 : ZMod 17)⟩⟩
instance : SMul ℕ K17 := ⟨fun n a => ⟨(n • a.emb : ZMod 17)⟩⟩
instance : SMul ℤ K17 := ⟨fun n a => ⟨(n • a.emb : ZMod 17)⟩⟩
instance : SMul ℚ≥0 K17 := ⟨fun q a => ⟨(q • a.emb : ZMod 17)⟩⟩
instance : SMul ℚ K17 := ⟨fun q a => ⟨(q • a.emb : ZMod 17)⟩⟩
instance : Pow K17 ℕ := ⟨fun a n => ⟨(a.emb ^ n : ZMod 17)⟩⟩
instance : Pow K17 ℤ := ⟨fun a n => ⟨(a.emb ^ n : ZMod 17)⟩⟩
instance : NatCast K17 := ⟨fun n => ⟨(n : ZMod 17)⟩⟩
instance : IntCast K17 := ⟨fun n => ⟨(n : ZMod 17)⟩⟩
instance : NNRatCast K17 := ⟨fun q => ⟨(q : ZMod 17)⟩⟩
instance : RatCast K17 := ⟨fun q => ⟨(q : ZMod 17)⟩⟩

lemma emb_injective : Function.Injective emb := by
  intro a b h
  cases a; cases b; simpa [emb] using h

lemma zmod17_inv_eq_pow (x : ZMod 17) : x⁻¹ = x ^ 15 := by
  rcases eq_or_ne x 0 with h | h
  · subst h
    have h0 : (0 : ZMod 17) ^ 15 = 0 := by decide
    rw [inv_zero, h0]
  · have h1 : ∀ y : ZMod 17, y ≠ 0 → y * y ^ 15 = 1 := by decide
    exact inv_eq_of_mul_eq_one_right (h1 x h)

lemma emb_inv (x : K17) : emb x⁻¹ = (emb x)⁻¹ := by
  rw [zmod17_inv_eq_pow]; rfl

instance instField : Field K17 :=
  Function.Injective.field emb emb_injective
    rfl rfl (fun _ _ => rfl) (fun _ _ => rfl) (fun _ => rfl) (fun _ _ => rfl)
    emb_inv
    (fun x y => by
      show emb x * emb y ^ 15 = emb x / emb y
      rw [div_eq_mul_inv, zmod17_inv_eq_pow])
    (fun _ _ => rfl) (fun _ _ => rfl) (fun _ _ => rfl) (fun _ _ => rfl)
    (fun _ _ => rfl) (fun _ _ => rfl) (fun _ => rfl) (fun _ => rfl)
    (fun _ => rfl) (fun _ => rfl)

end K17

namespace StarkSpec

/-! ### A concrete instantiation used by witnesses and counterexamples -/

/-- Primitive roots of unity of order `2^k` in `K17` (coherent up to `k = 4`:
the square of each is the previous one). -/
def cOmega : ℕ → K17 := fun k =>
  if k = 0 then 1 else if k = 1 then 16 else if k = 2 then 13
  else if k = 3 then 9 else if k = 4 then 3 else 0

/-- A concrete, fully computable instantiation of every external capability,
over `K17`, with a length-2 single-column trace, `blowup_factor = 2` and
`coset_offset = 3`. -/
def cExt : Externals K17 Unit Unit Unit :=
  { ω := cOmega
    context :=
      { trace_length := 2
        trace_columns := 1
        transition_offsets := [0, 1]
        num_transition_constraints := 1
        blowup_factor := 2
        fri_number_of_queries := 1
        coset_offset := 3 }
    build_main_trace := fun _ _ => Except.ok [[1, 2]]
    rap_fn := fun _ => ()
    build_auxiliary_trace := fun _ _ _ => []
    composition_poly := fun _ _ _ _ _ _ => [7, 3]
    ood_exact := fun _ _ _ _ _ _ _ => 11
    merkle_root := fun l => polyEval l 2
    sample_field_fn := fun log => (log.length : K17) + 2
    batch_fn := fun log n => (List.range n).map (fun i => ((log.length + i : ℕ) : K17))
    z_fn := fun _ => 7
    iota_fn := fun _ => 5
    query_out := fun _ => [[1]] }

/-- The concrete domain built by `prove` from `cExt`'s context. -/
def cDomain : DomainM K17 := mkDomain cOmega 2 2 3

end StarkSpec

namespace StarkSpec

/-! ## Lemmas: coefficient-list polynomial algebra -/

variable {F : Type} [Field F] [DecidableEq F] {RawTrace PubInput RAPCh : Type}

lemma polyEval_nil (x : F) : polyEval ([] : List F) x = 0 := rfl

lemma polyEval_cons (a : F) (p : List F) (x : F) :
    polyEval (a :: p) x = a + x * polyEval p x := rfl

lemma polyEval_polyAdd (p q : List F) (x : F) :
    polyEval (polyAdd p q) x = polyEval p x + polyEval q x := by
  induction p generalizing q with
  | nil => simp [polyAdd, polyEval_nil]
  | cons a p ih =>
    cases q with
    | nil => simp [polyAdd, polyEval_nil]
    | cons b q =>
      simp only [polyAdd, polyEval_cons, ih]
      ring

lemma polyEval_polyNeg (p : List F) (x : F) :
    polyEval (polyNeg p) x = -polyEval p x := by
  induction p with
  | nil => simp [polyNeg, polyEval_nil]
  | cons a p ih =>
    simp only [polyNeg, List.map_cons, polyEval_cons] at *
    rw [ih]
    ring

lemma polyEval_polySub (p q : List F) (x : F) :
    polyEval (polySub p q) x = polyEval p x - polyEval q x := by
  rw [polySub, polyEval_polyAdd, polyEval_polyNeg]
  ring

lemma polyEval_polyScale (c : F) (p : List F) (x : F) :
    polyEval (polyScale c p) x = c * polyEval p x := by
  induction p with
  | nil => simp [polyScale, polyEval_nil]
  | cons a p ih =>
    simp only [polyScale, List.map_cons, polyEval_cons] at *
    rw [ih]
    ring

lemma polyEval_mulXSubC (a : F) (q : List F) (x : F) :
    polyEval (mulXSubC a q) x = (x - a) * polyEval q x := by
  rw [mulXSubC, polyEval_polySub, polyEval_cons, polyEval_polyScale]
  ring

lemma polyEval_nodal (xs : List F) (x : F) :
    polyEval (nodal xs) x = (xs.map (fun a => x - a)).prod := by
  induction xs with
  | nil => simp [nodal, polyEval_cons, polyEval_nil]
  | cons a xs ih =>
    simp only [nodal, List.foldr_cons, List.map_cons, List.prod_cons] at *
    rw [polyEval_mulXSubC, ih]

lemma polyEval_polyMul (p q : List F) (x : F) :
    polyEval (polyMul p q) x = polyEval p x * polyEval q x := by
  induction p with
  | nil => simp [polyMul, polyEval_nil]
  | cons a p ih =>
    simp only [polyMul, polyEval_polyAdd, polyEval_polyScale, polyEval_cons, ih]
    ring

lemma polyAdd_length (p q : List F) :
    (polyAdd p q).length = max p.length q.length := by
  induction p generalizing q with
  | nil => simp [polyAdd]
  | cons a p ih =>
    cases q with
    | nil => simp [polyAdd]
    | cons b q =>
      simp only [polyAdd, List.length_cons, ih]
      omega

lemma polyScale_length (c : F) (p : List F) : (polyScale c p).length = p.length := by
  simp [polyScale]

lemma polyNeg_length (p : List F) : (polyNeg p).length = p.length := by
  simp [polyNeg]

lemma polySub_length (p q : List F) :
    (polySub p q).length = max p.length q.length := by
  rw [polySub, polyAdd_length, polyNeg_length]

lemma mulXSubC_length (a : F) (q : List F) :
    (mulXSubC a q).length = q.length + 1 := by
  rw [mulXSubC, polySub_length, polyScale_length]
  simp [Nat.max_eq_left]

lemma nodal_length (xs : List F) : (nodal xs).length = xs.length + 1 := by
  induction xs with
  | nil => simp [nodal]
  | cons a xs ih =>
    simp only [nodal, List.foldr_cons] at *
    rw [mulXSubC_length, ih]
    simp

lemma interpolate_length (xs ys : List F) :
    (interpolate xs ys).length ≤ xs.length := by
  induction xs generalizing ys with
  | nil => cases ys <;> simp [interpolate]
  | cons x0 xs ih =>
    cases ys with
    | nil => simp [interpolate]
    | cons y0 ys =>
      simp only [interpolate, polyAdd_length, polyScale_length, nodal_length]
      exact max_le (Nat.le_succ_of_le (ih ys)) (Nat.le_refl _)

end StarkSpec

namespace StarkSpec

variable {F : Type} [Field F] [DecidableEq F] {RawTrace PubInput RAPCh : Type}

/-! ## Lemmas: interpolation correctness -/

lemma interpolate_eval_nodes (xs ys : List F) (hlen : xs.length = ys.length)
    (hnd : xs.Pairwise (fun a b => a ≠ b)) :
    ∀ i, i < xs.length →
      polyEval (interpolate xs ys) (xs.getD i 0) = ys.getD i 0 := by
  induction xs generalizing ys with
  | nil => intro i hi; simp at hi
  | cons x0 xs ih =>
    cases ys with
    | nil => simp at hlen
    | cons y0 ys =>
      have hlen' : xs.length = ys.length := by simpa using hlen
      have hhead : ∀ a ∈ xs, x0 ≠ a := (List.pairwise_cons.mp hnd).1
      have htail : xs.Pairwise (fun a b => a ≠ b) := (List.pairwise_cons.mp hnd).2
      have hprod : polyEval (nodal xs) x0 ≠ 0 := by
        rw [polyEval_nodal]
        refine List.prod_ne_zero ?_
        intro hmem
        rcases List.mem_map.mp hmem with ⟨a, ha, hz⟩
        exact sub_ne_zero_of_ne (hhead a ha) hz
      intro i hi
      match i with
      | 0 =>
        simp only [interpolate, List.getD_cons_zero, polyEval_polyAdd,
          polyEval_polyScale]
        rw [div_mul_cancel₀ _ hprod]
        ring
      | Nat.succ j =>
        have hj : j < xs.length := by simpa using hi
        have hnode : xs.getD j 0 ∈ xs := by
          rw [List.getD_eq_getElem xs 0 hj]
          exact List.getElem_mem hj
        have hvanish : polyEval (nodal xs) (xs.getD j 0) = 0 := by
          rw [polyEval_nodal]
          refine List.prod_eq_zero_iff.mpr ?_
          exact List.mem_map.mpr ⟨xs.getD j 0, hnode, sub_self _⟩
        simp only [interpolate, List.getD_cons_succ, polyEval_polyAdd,
          polyEval_polyScale, hvanish, mul_zero, add_zero]
        exact ih ys hlen' htail j hj

/-! ## Lemmas: bridge to `Mathlib` polynomials -/

/-- The Mathlib polynomial with the given coefficient list. -/
noncomputable def toPoly (l : List F) : Polynomial F :=
  l.foldr (fun a q => Polynomial.C a + Polynomial.X * q) 0

lemma toPoly_nil : toPoly ([] : List F) = 0 := rfl

lemma toPoly_cons (a : F) (l : List F) :
    toPoly (a :: l) = Polynomial.C a + Polynomial.X * toPoly l := rfl

lemma toPoly_eval (l : List F) (x : F) : (toPoly l).eval x = polyEval l x := by
  induction l with
  | nil => simp [toPoly_nil, polyEval_nil]
  | cons a l ih => simp [toPoly_cons, polyEval_cons, ih]

lemma toPoly_coeff (l : List F) (i : ℕ) : (toPoly l).coeff i = l.getD i 0 := by
  induction l generalizing i with
  | nil => simp [toPoly_nil]
  | cons a l ih =>
    cases i with
    | zero => simp [toPoly_cons, Polynomial.coeff_X_mul_zero]
    | succ j => simp [toPoly_cons, Polynomial.coeff_X_mul, ih]

lemma toPoly_degree_lt (l : List F) (n : ℕ) (h : l.length ≤ n) :
    (toPoly l).degree < (n : ℕ) := by
  rw [Polynomial.degree_lt_iff_coeff_zero]
  intro m hm
  rw [toPoly_coeff]
  exact List.getD_eq_default _ _ (le_trans h hm)

/-- Two coefficient lists of length `≤ n` that agree on `n` pairwise-distinct
nodes have identical coefficients everywhere. -/
lemma getD_eq_of_eval_eq_on_nodes (p q nodes : List F)
    (hp : p.length ≤ nodes.length) (hq : q.length ≤ nodes.length)
    (hnd : nodes.Pairwise (fun a b => a ≠ b))
    (h : ∀ i, i < nodes.length →
      polyEval p (nodes.getD i 0) = polyEval q (nodes.getD i 0)) :
    ∀ i, p.getD i 0 = q.getD i 0 := by
  have hinj : Set.InjOn (fun i => nodes.getD i 0)
      ((Finset.range nodes.length) : Finset ℕ) := by
    intro i hi j hj hij
    simp only [Finset.coe_range, Set.mem_Iio] at hi hj
    have hij' : nodes.getD i 0 = nodes.getD j 0 := hij
    by_contra hne
    rcases Nat.lt_or_ge i j with hlt | hge
    · have := (List.pairwise_iff_getElem.mp hnd) i j hi hj hlt
      rw [List.getD_eq_getElem nodes 0 hi, List.getD_eq_getElem nodes 0 hj] at hij'
      exact this hij'
    · have hgt : j < i := lt_of_le_of_ne hge (Ne.symm hne)
      have := (List.pairwise_iff_getElem.mp hnd) j i hj hi hgt
      rw [List.getD_eq_getElem nodes 0 hi, List.getD_eq_getElem nodes 0 hj] at hij'
      exact this hij'.symm
  have hdp : (toPoly p).degree < ((Finset.range nodes.length).card : ℕ) := by
    rw [Finset.card_range]; exact toPoly_degree_lt p _ hp
  have hdq : (toPoly q).degree < ((Finset.range nodes.length).card : ℕ) := by
    rw [Finset.card_range]; exact toPoly_degree_lt q _ hq
  have heval : ∀ i ∈ Finset.range nodes.length,
      (toPoly p).eval (nodes.getD i 0) = (toPoly q).eval (nodes.getD i 0) := by
    intro i hi
    rw [toPoly_eval, toPoly_eval]
    exact h i (Finset.mem_range.mp hi)
  have := Polynomial.eq_of_degrees_lt_of_eval_index_eq
    (Finset.range nodes.length) hinj hdp hdq heval
  intro i
  rw [← toPoly_coeff, ← toPoly_coeff, this]

end StarkSpec

namespace StarkSpec

variable {F : Type} [Field F] [DecidableEq F] {RawTrace PubInput RAPCh : Type}

/-! ## Lemmas: logarithms, subsampling, and the LDE evaluation -/

lemma log2f_pow2 : ∀ (c fuel : ℕ), 2 ^ c ≤ fuel + 1 → log2f fuel (2 ^ c) = c := by
  intro c
  induction c with
  | zero =>
    intro fuel _
    cases fuel with
    | zero => rfl
    | succ f => simp [log2f]
  | succ c ih =>
    intro fuel hfuel
    have hp : 1 ≤ 2 ^ c := Nat.one_le_two_pow
    have h2 : 2 * 2 ^ c = 2 ^ (c + 1) := by rw [← pow_succ']
    cases fuel with
    | zero => omega
    | succ f =>
      have hgt : ¬ 2 ^ (c + 1) ≤ 1 := by omega
      have hdiv : 2 ^ (c + 1) / 2 = 2 ^ c := by omega
      simp only [log2f, hgt, if_false, hdiv]
      rw [ih f (by omega)]
      omega

lemma log2_pow2 (c : ℕ) : log2 (2 ^ c) = c :=
  log2f_pow2 c (2 ^ c) (Nat.le_succ _)

lemma max_pow2 (a c : ℕ) : max (2 ^ a) (2 ^ c) = 2 ^ (max a c) := by
  rcases le_total a c with h | h
  · rw [max_eq_right (Nat.pow_le_pow_right (by norm_num) h), max_eq_right h]
  · rw [max_eq_left (Nat.pow_le_pow_right (by norm_num) h), max_eq_left h]

lemma omega_pow_chain (ω : ℕ → F) (top : ℕ)
    (hcoh : ∀ k, k < top → (ω (k + 1)) ^ 2 = ω k) :
    ∀ j c, c + j ≤ top → (ω (c + j)) ^ (2 ^ j) = ω c := by
  intro j
  induction j with
  | zero => intro c _; simp
  | succ j ih =>
    intro c hc
    have h1 : (ω (c + j + 1)) ^ 2 = ω (c + j) := hcoh (c + j) (by omega)
    have hadd : c + (j + 1) = c + j + 1 := by omega
    have h2 : (2 : ℕ) ^ (j + 1) = 2 * 2 ^ j := by rw [pow_succ']
    rw [hadd, h2, pow_mul, h1]
    exact ih c (by omega)

lemma getD_range_map (f : ℕ → F) (n i : ℕ) (h : i < n) :
    ((List.range n).map f).getD i 0 = f i := by
  have hlen : i < ((List.range n).map f).length := by simpa using h
  rw [List.getD_eq_getElem _ 0 hlen, List.getElem_map, List.getElem_range]

lemma stepBy_length (s : ℕ) (l : List F) :
    (stepBy s l).length = (l.length + s - 1) / s := by
  simp [stepBy]

lemma stepBy_getD (s : ℕ) (l : List F) (i : ℕ)
    (hi : i < (l.length + s - 1) / s) :
    (stepBy s l).getD i 0 = l.getD (i * s) 0 := by
  unfold stepBy
  exact getD_range_map _ _ _ hi

lemma evaluate_offset_fft_length (ω : ℕ → F) (p : List F) (blowup domain_size : ℕ)
    (offset : F) :
    (evaluate_offset_fft ω p blowup domain_size offset).length
      = fftEvalSize p blowup domain_size := by
  simp [evaluate_offset_fft]

lemma evaluate_offset_fft_getD (ω : ℕ → F) (p : List F) (blowup domain_size : ℕ)
    (offset : F) (i : ℕ) (hi : i < fftEvalSize p blowup domain_size) :
    (evaluate_offset_fft ω p blowup domain_size offset).getD i 0
      = polyEval p (offset * (ω (log2 (fftEvalSize p blowup domain_size))) ^ i) := by
  unfold evaluate_offset_fft
  exact getD_range_map _ _ _ hi

/-- Central LDE-evaluation lemma: for power-of-two sizes and a coherent root
table, `evaluate_polynomial_on_lde_domain` returns exactly
`domain_size * blowup` values, the `i`-th being `p(offset * root^i)` for the
root of order `domain_size * blowup`. -/
lemma lde_spec (ω : ℕ → F) (p : List F) (a b : ℕ) (offset : F)
    (hcoh : ∀ k, k < b + max a (clog2 p.length) → (ω (k + 1)) ^ 2 = ω k) :
    (evaluate_polynomial_on_lde_domain ω p (2 ^ b) (2 ^ a) offset).length
        = 2 ^ a * 2 ^ b ∧
    ∀ i, i < 2 ^ a * 2 ^ b →
      (evaluate_polynomial_on_lde_domain ω p (2 ^ b) (2 ^ a) offset).getD i 0 =
        polyEval p (offset * (ω (a + b)) ^ i) := by
  set m := max a (clog2 p.length) with hm
  have hma : a ≤ m := le_max_left _ _
  have hn : fftEvalSize p (2 ^ b) (2 ^ a) = 2 ^ (b + m) := by
    rw [fftEvalSize, nextPow2, max_pow2, pow_add, hm]
  have hlog : log2 (2 ^ (b + m)) = b + m := log2_pow2 _
  have hevlen : (evaluate_offset_fft ω p (2 ^ b) (2 ^ a) offset).length = 2 ^ (b + m) := by
    rw [evaluate_offset_fft_length, hn]
  have hevget : ∀ i, i < 2 ^ (b + m) →
      (evaluate_offset_fft ω p (2 ^ b) (2 ^ a) offset).getD i 0
        = polyEval p (offset * (ω (b + m)) ^ i) := by
    intro i hi
    rw [evaluate_offset_fft_getD ω p _ _ offset i (by rw [hn]; exact hi), hn, hlog]
  have hab : (2 : ℕ) ^ a * 2 ^ b = 2 ^ (a + b) := (pow_add 2 a b).symm
  have hstep : (evaluate_offset_fft ω p (2 ^ b) (2 ^ a) offset).length
      / (2 ^ a * 2 ^ b) = 2 ^ (m - a) := by
    rw [hevlen, hab, Nat.pow_div (by omega) (by norm_num)]
    have : b + m - (a + b) = m - a := by omega
    rw [this]
  have hunfold : evaluate_polynomial_on_lde_domain ω p (2 ^ b) (2 ^ a) offset
      = (if (evaluate_offset_fft ω p (2 ^ b) (2 ^ a) offset).length
            / (2 ^ a * 2 ^ b) = 1
         then evaluate_offset_fft ω p (2 ^ b) (2 ^ a) offset
         else stepBy ((evaluate_offset_fft ω p (2 ^ b) (2 ^ a) offset).length
            / (2 ^ a * 2 ^ b))
           (evaluate_offset_fft ω p (2 ^ b) (2 ^ a) offset)) := rfl
  rw [hunfold, hstep]
  by_cases hcase : (2 : ℕ) ^ (m - a) = 1
  · have hmeq : m = a := by
      have : m - a = 0 := by
        by_contra hne
        have : 2 ^ (m - a) ≥ 2 ^ 1 := Nat.pow_le_pow_right (by norm_num) (by omega)
        omega
      omega
    rw [if_pos hcase]
    constructor
    · rw [hevlen, hab]; congr 1; omega
    · intro i hi
      have hi' : i < 2 ^ (b + m) := by
        rw [hab] at hi
        have : a + b = b + m := by omega
        rw [← this]; exact hi
      rw [hevget i hi']
      have : a + b = b + m := by omega
      rw [this]
  · rw [if_neg hcase]
    set s := (2 : ℕ) ^ (m - a) with hs
    have hspos : 1 ≤ s := Nat.one_le_two_pow
    have hsplit : (2 : ℕ) ^ (b + m) = 2 ^ (a + b) * s := by
      rw [hs, ← pow_add]
      congr 1
      omega
    have hlen2 : (2 ^ (a + b) * s + s - 1) / s = 2 ^ (a + b) := by
      have h1 : 2 ^ (a + b) * s + s - 1 = (s - 1) + s * 2 ^ (a + b) := by
        rw [mul_comm s (2 ^ (a + b))]
        omega
      rw [h1, Nat.add_mul_div_left _ _ (by omega), Nat.div_eq_of_lt (by omega)]
      omega
    constructor
    · rw [stepBy_length, hevlen, hsplit, hlen2, hab]
    · intro i hi
      rw [hab] at hi
      have hibound : i < (2 ^ (a + b) * s + s - 1) / s := by rw [hlen2]; exact hi
      rw [stepBy_getD s _ i (by rw [hevlen, hsplit]; exact hibound)]
      have himul : i * s < 2 ^ (b + m) := by
        rw [hsplit]
        exact (Nat.mul_lt_mul_right (by omega)).mpr hi
      rw [hevget _ himul]
      have hchain : (ω (b + m)) ^ s = ω (a + b) := by
        have hexp : a + b + (m - a) = b + m := by omega
        have := omega_pow_chain ω (b + m) hcoh (m - a) (a + b) (by omega)
        rw [hexp] at this
        exact this
      rw [mul_comm i s, pow_mul, hchain]

end StarkSpec

namespace StarkSpec

variable {F : Type} [Field F] [DecidableEq F] {RawTrace PubInput RAPCh : Type}

/-! ## Lemmas: domain structure and the truncated interpolation -/

lemma getD_take (l : List F) (n i : ℕ) (h : i < n) :
    (l.take n).getD i 0 = l.getD i 0 := by
  by_cases hl : i < l.length
  · have h1 : i < (l.take n).length := by
      rw [List.length_take]; omega
    rw [List.getD_eq_getElem _ 0 h1, List.getD_eq_getElem _ 0 hl,
      List.getElem_take]
  · have h1 : l.length ≤ i := by omega
    have h2 : (l.take n).length ≤ i := by
      rw [List.length_take]; omega
    rw [List.getD_eq_default _ 0 h1, List.getD_eq_default _ 0 h2]

lemma getD_zipWith (f : F → F → F) (l1 l2 : List F) (i : ℕ)
    (h1 : i < l1.length) (h2 : i < l2.length) :
    (List.zipWith f l1 l2).getD i 0 = f (l1.getD i 0) (l2.getD i 0) := by
  have hz : i < (List.zipWith f l1 l2).length := by
    rw [List.length_zipWith]; omega
  rw [List.getD_eq_getElem _ 0 hz, List.getD_eq_getElem _ 0 h1,
    List.getD_eq_getElem _ 0 h2, List.getElem_zipWith]

lemma mkDomain_coset_length (ω : ℕ → F) (a b : ℕ) (offset : F) :
    (mkDomain ω (2 ^ a) (2 ^ b) offset).lde_roots_of_unity_coset.length
      = 2 ^ a * 2 ^ b := by
  simp [mkDomain]

lemma mkDomain_coset_getD (ω : ℕ → F) (a b : ℕ) (offset : F) (i : ℕ)
    (hi : i < 2 ^ a * 2 ^ b) :
    (mkDomain ω (2 ^ a) (2 ^ b) offset).lde_roots_of_unity_coset.getD i 0
      = offset * (ω (a + b)) ^ i := by
  have hlog : log2 (2 ^ a * 2 ^ b) = a + b := by
    rw [← pow_add]; exact log2_pow2 _
  simp only [mkDomain]
  rw [getD_range_map _ _ _ hi, hlog]

lemma targetDeg_le (domain : DomainM F) (evil bad_trace : Bool) :
    targetDeg domain evil bad_trace ≤ domain.lde_roots_of_unity_coset.length := by
  unfold targetDeg
  by_cases h : (evil || !bad_trace) = true
  · rw [if_pos h]; exact Nat.div_le_self _ _
  · rw [if_neg h]; exact Nat.div_le_self _ _

/-- Shared spec for `interp_from_num_denom` over a power-of-two domain with a
coherent root table: the returned polynomial has at most `target_deg`
coefficients and takes, at each of the first `target_deg` LDE points, exactly
the value of the pointwise `num/denom` quotient. -/
lemma interp_from_num_denom_spec (ω : ℕ → F) (num denom : List F) (a b : ℕ)
    (offset : F) (poly_sanity_check : List F) (evil bad_trace : Bool)
    (hcohn : ∀ k, k < b + max a (clog2 num.length) → (ω (k + 1)) ^ 2 = ω k)
    (hcohd : ∀ k, k < b + max a (clog2 denom.length) → (ω (k + 1)) ^ 2 = ω k)
    (hnd : ((mkDomain ω (2 ^ a) (2 ^ b) offset).lde_roots_of_unity_coset.take
      (targetDeg (mkDomain ω (2 ^ a) (2 ^ b) offset) evil bad_trace)).Pairwise
        (fun x y => x ≠ y)) :
    (interp_from_num_denom ω num denom (mkDomain ω (2 ^ a) (2 ^ b) offset)
        poly_sanity_check evil bad_trace).length
      ≤ targetDeg (mkDomain ω (2 ^ a) (2 ^ b) offset) evil bad_trace ∧
    ∀ i, i < targetDeg (mkDomain ω (2 ^ a) (2 ^ b) offset) evil bad_trace →
      polyEval (interp_from_num_denom ω num denom (mkDomain ω (2 ^ a) (2 ^ b) offset)
          poly_sanity_check evil bad_trace) (offset * (ω (a + b)) ^ i)
        = polyEval num (offset * (ω (a + b)) ^ i)
          / polyEval denom (offset * (ω (a + b)) ^ i) := by
  set domain := mkDomain ω (2 ^ a) (2 ^ b) offset with hdom
  set target := targetDeg domain evil bad_trace with htarget
  have hlen : domain.lde_roots_of_unity_coset.length = 2 ^ a * 2 ^ b :=
    mkDomain_coset_length ω a b offset
  have htle : target ≤ 2 ^ a * 2 ^ b := by
    rw [← hlen]; exact targetDeg_le domain evil bad_trace
  have hblow : domain.blowup_factor = 2 ^ b := rfl
  have hsize : domain.interpolation_domain_size = 2 ^ a := rfl
  have hoff : domain.coset_offset = offset := rfl
  have hnum := lde_spec ω num a b offset hcohn
  have hden := lde_spec ω denom a b offset hcohd
  have hunfold : interp_from_num_denom ω num denom domain poly_sanity_check evil bad_trace
      = interpolate (domain.lde_roots_of_unity_coset.take target)
          ((List.zipWith (fun x y => x / y)
            (evaluate_polynomial_on_lde_domain ω num (2 ^ b) (2 ^ a) offset)
            (evaluate_polynomial_on_lde_domain ω denom (2 ^ b) (2 ^ a) offset)).take
              target) := rfl
  have hzlen : (List.zipWith (fun x y => x / y)
      (evaluate_polynomial_on_lde_domain ω num (2 ^ b) (2 ^ a) offset)
      (evaluate_polynomial_on_lde_domain ω denom (2 ^ b) (2 ^ a) offset)).length
      = 2 ^ a * 2 ^ b := by
    rw [List.length_zipWith, hnum.1, hden.1]
    omega
  have hnodes_len : (domain.lde_roots_of_unity_coset.take target).length = target := by
    rw [List.length_take]
    omega
  have hvals_len : ((List.zipWith (fun x y => x / y)
      (evaluate_polynomial_on_lde_domain ω num (2 ^ b) (2 ^ a) offset)
      (evaluate_polynomial_on_lde_domain ω denom (2 ^ b) (2 ^ a) offset)).take
        target).length = target := by
    rw [List.length_take]
    omega
  constructor
  · rw [hunfold]
    calc (interpolate _ _).length
        ≤ (domain.lde_roots_of_unity_coset.take target).length :=
          interpolate_length _ _
      _ = target := hnodes_len
  · intro i hi
    have hnode : (domain.lde_roots_of_unity_coset.take target).getD i 0
        = offset * (ω (a + b)) ^ i := by
      rw [getD_take _ _ _ hi, hdom, mkDomain_coset_getD ω a b offset i (by omega)]
    have hval : ((List.zipWith (fun x y => x / y)
        (evaluate_polynomial_on_lde_domain ω num (2 ^ b) (2 ^ a) offset)
        (evaluate_polynomial_on_lde_domain ω denom (2 ^ b) (2 ^ a) offset)).take
          target).getD i 0
        = polyEval num (offset * (ω (a + b)) ^ i)
          / polyEval denom (offset * (ω (a + b)) ^ i) := by
      rw [getD_take _ _ _ hi,
        getD_zipWith _ _ _ i (by rw [hnum.1]; omega) (by rw [hden.1]; omega),
        hnum.2 i (by omega), hden.2 i (by omega)]
    have := interpolate_eval_nodes (domain.lde_roots_of_unity_coset.take target)
      ((List.zipWith (fun x y => x / y)
        (evaluate_polynomial_on_lde_domain ω num (2 ^ b) (2 ^ a) offset)
        (evaluate_polynomial_on_lde_domain ω denom (2 ^ b) (2 ^ a) offset)).take
          target)
      (by rw [hnodes_len, hvals_len]) hnd i (by rw [hnodes_len]; omega)
    rw [hunfold, hnode, hval] at *
    rw [← hnode] at this ⊢
    rw [hnode]
    rw [← hval]
    exact this

end StarkSpec

namespace StarkSpec

variable {F : Type} [Field F] [DecidableEq F] {RawTrace PubInput RAPCh : Type}

/-! ## Lemmas: the honest-path sanity assertion -/

lemma interpAssertOk_of_getD (r s : List F) (h : ∀ i, r.getD i 0 = s.getD i 0) :
    interpAssertOk r s := by
  intro pr hpr
  rcases List.mem_iff_getElem.mp hpr with ⟨i, hi, heq⟩
  have hir : i < r.length := by
    rw [List.length_zip] at hi; omega
  have his : i < s.length := by
    rw [List.length_zip] at hi; omega
  rw [← heq, List.getElem_zip]
  show r[i] = s[i]
  rw [← List.getD_eq_getElem r 0 hir, ← List.getD_eq_getElem s 0 his]
  exact h i

/-- The honest-path argument behind the `assert_eq!` in
`interp_from_num_denom`: whenever the numerator is exactly the denominator
times the expected polynomial (the honest relationship), the denominator does
not vanish on the sampled nodes, and the expected polynomial respects the
target degree bound, the truncated interpolation reproduces the expected
polynomial coefficient-for-coefficient, so the assertion passes. -/
lemma interp_assert_lemma (ω : ℕ → F) (denom poly_sanity_check : List F) (a b : ℕ)
    (offset : F) (bad_trace : Bool)
    (hcohn : ∀ k, k < b + max a (clog2 (polyMul denom poly_sanity_check).length) →
      (ω (k + 1)) ^ 2 = ω k)
    (hcohd : ∀ k, k < b + max a (clog2 denom.length) → (ω (k + 1)) ^ 2 = ω k)
    (hnd : ((mkDomain ω (2 ^ a) (2 ^ b) offset).lde_roots_of_unity_coset.take
      (targetDeg (mkDomain ω (2 ^ a) (2 ^ b) offset) false bad_trace)).Pairwise
        (fun x y => x ≠ y))
    (hslen : poly_sanity_check.length
      ≤ targetDeg (mkDomain ω (2 ^ a) (2 ^ b) offset) false bad_trace)
    (hdenom : ∀ i, i < targetDeg (mkDomain ω (2 ^ a) (2 ^ b) offset) false bad_trace →
      polyEval denom (offset * (ω (a + b)) ^ i) ≠ 0) :
    interpAssertOk
      (interp_from_num_denom ω (polyMul denom poly_sanity_check) denom
        (mkDomain ω (2 ^ a) (2 ^ b) offset) poly_sanity_check false bad_trace)
      poly_sanity_check := by
  set domain := mkDomain ω (2 ^ a) (2 ^ b) offset with hdom
  set target := targetDeg domain false bad_trace with htargetdef
  have hspec := interp_from_num_denom_spec ω (polyMul denom poly_sanity_check) denom
    a b offset poly_sanity_check false bad_trace hcohn hcohd hnd
  set result := interp_from_num_denom ω (polyMul denom poly_sanity_check) denom
    domain poly_sanity_check false bad_trace with hres
  have hlen : domain.lde_roots_of_unity_coset.length = 2 ^ a * 2 ^ b :=
    mkDomain_coset_length ω a b offset
  have htle : target ≤ 2 ^ a * 2 ^ b := by
    rw [← hlen]; exact targetDeg_le domain false bad_trace
  have hnodes_len : (domain.lde_roots_of_unity_coset.take target).length = target := by
    rw [List.length_take]; omega
  have hnodeval : ∀ i, i < target →
      (domain.lde_roots_of_unity_coset.take target).getD i 0
        = offset * (ω (a + b)) ^ i := by
    intro i hi
    rw [getD_take _ _ _ hi, hdom, mkDomain_coset_getD ω a b offset i (by omega)]
  refine interpAssertOk_of_getD _ _ ?_
  refine getD_eq_of_eval_eq_on_nodes result poly_sanity_check
    (domain.lde_roots_of_unity_coset.take target) (by rw [hnodes_len]; exact hspec.1)
    (by rw [hnodes_len]; exact hslen) hnd ?_
  intro i hi
  rw [hnodes_len] at hi
  rw [hnodeval i hi]
  rw [hspec.2 i hi]
  rw [polyEval_polyMul]
  exact mul_div_cancel_left₀ _ (hdenom i hi)

end StarkSpec

namespace StarkSpec

variable {F : Type} [Field F] [DecidableEq F] {RawTrace PubInput RAPCh : Type}

/-! ## Lemmas: FRI folding -/

lemma evens_length (p : List F) : (evens p).length = (p.length + 1) / 2 := by
  induction p using evens.induct <;> simp [evens, *] <;> omega

lemma odds_length (p : List F) : (odds p).length = p.length / 2 := by
  induction p using odds.induct <;> simp [odds, *] <;> omega

lemma foldPoly_length (p : List F) (beta : F) :
    (foldPoly p beta).length = (p.length + 1) / 2 := by
  rw [foldPoly, List.length_zipWith, evens_length]
  simp only [List.length_append, List.length_cons, List.length_nil, odds_length]
  omega

lemma friLoop_roots_length (ext : Externals F RawTrace PubInput RAPCh) :
    ∀ (n : ℕ) (p dom : List F) (ts : TState F),
      (friLoop ext n p dom ts).2.2.1.length = n := by
  intro n
  induction n with
  | zero => intro p dom ts; rfl
  | succ n ih =>
    intro p dom ts
    simp only [friLoop, List.length_cons]
    rw [ih]

lemma friLoop_poly_length (ext : Externals F RawTrace PubInput RAPCh) :
    ∀ (n m : ℕ) (p dom : List F) (ts : TState F), p.length ≤ 2 ^ (n + m) →
      (friLoop ext n p dom ts).1.length ≤ 2 ^ m := by
  intro n
  induction n with
  | zero => intro m p dom ts h; simpa using h
  | succ n ih =>
    intro m p dom ts h
    simp only [friLoop]
    refine ih m _ _ _ ?_
    rw [foldPoly_length]
    have h2 : (2 : ℕ) ^ (n + 1 + m) = 2 * 2 ^ (n + m) := by
      rw [← pow_succ']
      congr 1
      omega
    have hp : (1 : ℕ) ≤ 2 ^ (n + m) := Nat.one_le_two_pow
    omega

lemma friCommitPhase_roots_length (ext : Externals F RawTrace PubInput RAPCh)
    (number_layers : ℕ) (p0 dom : List F) (ts : TState F) :
    (friCommitPhase ext number_layers p0 dom ts).2.1.length
      = (number_layers - 1) + 1 := by
  simp only [friCommitPhase, List.length_cons]
  rw [friLoop_roots_length]

/-! ## Lemmas: transcript logs -/

lemma push_log (ts : TState F) (e : TEvent F) : (ts.push e).log = ts.log ++ [e] := rfl

lemma foldl_push_append_log (l : List F) :
    ∀ ts : TState F,
      (l.foldl (fun a e => a.push (TEvent.append e)) ts).log
        = ts.log ++ l.map TEvent.append := by
  induction l with
  | nil => intro ts; simp
  | cons x l ih =>
    intro ts
    simp only [List.foldl_cons, List.map_cons]
    rw [ih, push_log, List.append_assoc]
    rfl

lemma foldl_roots_append_log (roots : List F) :
    ∀ ts : TState F,
      (roots.foldl (fun acc root => acc.push (TEvent.append root)) ts).log
        = ts.log ++ roots.map TEvent.append :=
  foldl_push_append_log roots

lemma appendFrameRows_log (fr : FrameM F) (ts : TState F) :
    (appendFrameRows ts fr).log
      = ts.log ++ ((List.range fr.num_rows).map
          (fun i => (fr.get_row i).map TEvent.append)).flatten := by
  rw [appendFrameRows]
  generalize List.range fr.num_rows = idxs
  induction idxs generalizing ts with
  | nil => simp
  | cons i idxs ih =>
    simp only [List.foldl_cons, List.map_cons, List.flatten_cons]
    rw [ih, foldl_push_append_log, List.append_assoc]

lemma friLoop_log_extend (ext : Externals F RawTrace PubInput RAPCh) :
    ∀ (n : ℕ) (p dom : List F) (ts : TState F),
      ∃ l, (friLoop ext n p dom ts).2.2.2.log = ts.log ++ l := by
  intro n
  induction n with
  | zero => intro p dom ts; exact ⟨[], by simp [friLoop]⟩
  | succ n ih =>
    intro p dom ts
    simp only [friLoop]
    obtain ⟨l, hl⟩ := ih (foldPoly p (ext.sample_field_fn ts.log))
      ((dom.take (dom.length / 2)).map (fun x => x * x))
      ((ts.push TEvent.sampleField).push (TEvent.append
        (ext.merkle_root (((dom.take (dom.length / 2)).map (fun x => x * x)).map
          (polyEval (foldPoly p (ext.sample_field_fn ts.log)))))))
    refine ⟨[TEvent.sampleField, TEvent.append
      (ext.merkle_root (((dom.take (dom.length / 2)).map (fun x => x * x)).map
        (polyEval (foldPoly p (ext.sample_field_fn ts.log)))))] ++ l, ?_⟩
    rw [hl, push_log, push_log]
    simp [List.append_assoc]

end StarkSpec

namespace StarkSpec

variable {F : Type} [Field F] [DecidableEq F] {RawTrace PubInput RAPCh : Type}

lemma friCommitPhase_log_extend (ext : Externals F RawTrace PubInput RAPCh)
    (number_layers : ℕ) (p0 dom : List F) (ts : TState F) :
    ∃ l, (friCommitPhase ext number_layers p0 dom ts).2.2.log = ts.log ++ l := by
  simp only [friCommitPhase]
  obtain ⟨l, hl⟩ := friLoop_log_extend ext (number_layers - 1) p0 dom
    (ts.push (TEvent.append (ext.merkle_root (dom.map (polyEval p0)))))
  refine ⟨[TEvent.append (ext.merkle_root (dom.map (polyEval p0)))] ++ l
    ++ [TEvent.sampleField,
        TEvent.append ((foldPoly (friLoop ext (number_layers - 1) p0 dom
          (ts.push (TEvent.append (ext.merkle_root (dom.map (polyEval p0)))))).1
          (ext.sample_field_fn (friLoop ext (number_layers - 1) p0 dom
            (ts.push (TEvent.append (ext.merkle_root (dom.map (polyEval p0)))))).2.2.2.log)).getD 0 0)], ?_⟩
  rw [push_log, push_log, hl, push_log]
  simp [List.append_assoc]

lemma round_4_log (ext : Externals F RawTrace PubInput RAPCh) (domain : DomainM F)
    (round_1_result : Round1M F RAPCh) (round_2_result : Round2M F)
    (round_3_result : Round3M F) (z : F) (ts : TState F) (evil bad_trace : Bool) :
    ∃ rest, (round_4_compute_and_run_fri_on_the_deep_composition_polynomial ext domain
        round_1_result round_2_result round_3_result z ts evil bad_trace).2.log
      = ts.log ++ [TEvent.sampleField, TEvent.sampleField,
          TEvent.batchSample
            (ext.context.transition_offsets.length * ext.context.trace_columns)]
        ++ rest := by
  simp only [round_4_compute_and_run_fri_on_the_deep_composition_polynomial,
    transcript_to_field, batch_sample_challenges, fri_query_phase]
  set ts3 := (((ts.push TEvent.sampleField).push TEvent.sampleField).push
    (TEvent.batchSample
      (ext.context.transition_offsets.length * ext.context.trace_columns))) with hts3
  obtain ⟨l, hl⟩ := friCommitPhase_log_extend ext domain.root_order
    (compute_deep_composition_poly ext domain round_1_result.trace_polys
      round_2_result round_3_result z domain.trace_primitive_root
      (ext.sample_field_fn ts.log)
      (ext.sample_field_fn (ts.push TEvent.sampleField).log)
      (ext.batch_fn ((ts.push TEvent.sampleField).push TEvent.sampleField).log
        (ext.context.transition_offsets.length * ext.context.trace_columns))
      evil bad_trace)
    domain.lde_roots_of_unity_coset ts3
  refine ⟨l ++ [TEvent.sampleIndex], ?_⟩
  rw [push_log, hl, hts3, push_log, push_log, push_log]
  simp [List.append_assoc]

lemma round2Segment_log (ext : Externals F RawTrace PubInput RAPCh) (domain : DomainM F)
    (round_1_result : Round1M F RAPCh) (public_input : PubInput) (ts : TState F) :
    (round2Segment ext domain round_1_result public_input ts).2.2.2.log
      = ts.log
        ++ [TEvent.batchSample round_1_result.trace_polys.length,
            TEvent.batchSample round_1_result.trace_polys.length,
            TEvent.batchSample ext.context.num_transition_constraints,
            TEvent.batchSample ext.context.num_transition_constraints,
            TEvent.append (round2Segment ext domain round_1_result public_input
              ts).2.2.1.composition_poly_even_root,
            TEvent.append (round2Segment ext domain round_1_result public_input
              ts).2.2.1.composition_poly_odd_root] := by
  simp only [round2Segment, batch_sample_challenges, push_log]
  simp [List.append_assoc]

lemma round3Segment_log (ext : Externals F RawTrace PubInput RAPCh) (domain : DomainM F)
    (public_input : PubInput) (round_1_result : Round1M F RAPCh)
    (round_2_result : Round2M F) (boundary_coeffs transition_coeffs : List (F × F))
    (evil : Bool) (ts : TState F) :
    (round3Segment ext domain public_input round_1_result round_2_result
        boundary_coeffs transition_coeffs evil ts).2.2.log
      = ts.log ++ [TEvent.sampleZ]
        ++ [TEvent.append (round3Segment ext domain public_input round_1_result
              round_2_result boundary_coeffs transition_coeffs evil
              ts).1.composition_poly_even_ood_evaluation,
            TEvent.append (round3Segment ext domain public_input round_1_result
              round_2_result boundary_coeffs transition_coeffs evil
              ts).1.composition_poly_odd_ood_evaluation]
        ++ ((List.range (round3Segment ext domain public_input round_1_result
              round_2_result boundary_coeffs transition_coeffs evil
              ts).1.trace_ood_frame_evaluations.num_rows).map
            (fun i => ((round3Segment ext domain public_input round_1_result
              round_2_result boundary_coeffs transition_coeffs evil
              ts).1.trace_ood_frame_evaluations.get_row i).map TEvent.append)).flatten := by
  simp only [round3Segment, sample_z_ood]
  rw [appendFrameRows_log, push_log, push_log, push_log]
  simp [List.append_assoc]

end StarkSpec

namespace StarkSpec

variable {F : Type} [Field F] [DecidableEq F] {RawTrace PubInput RAPCh : Type}

/-! ## Claim theorems -/

/-- Claim C3: with `evil = false` (any `bad_trace`), the coefficient-equality
assertion inside `interp_from_num_denom` never fails for any DEEP term: when
the numerator is exactly the denominator times the direct algebraic term (the
situation of every H1-, H2- and trace term on a valid trace), the denominator
does not vanish on the sampled LDE nodes, and the algebraic term respects the
target degree bound, the truncated interpolation reproduces the algebraic
term's coefficients exactly, so the assertion branch is unreachable. -/
theorem C3_interp_assert_unreachable (ω : ℕ → F) (denom poly_sanity_check : List F)
    (a b : ℕ) (offset : F) (bad_trace : Bool)
    (hcohn : ∀ k, k < b + max a (clog2 (polyMul denom poly_sanity_check).length) →
      (ω (k + 1)) ^ 2 = ω k)
    (hcohd : ∀ k, k < b + max a (clog2 denom.length) → (ω (k + 1)) ^ 2 = ω k)
    (hnd : ((mkDomain ω (2 ^ a) (2 ^ b) offset).lde_roots_of_unity_coset.take
      (targetDeg (mkDomain ω (2 ^ a) (2 ^ b) offset) false bad_trace)).Pairwise
        (fun x y => x ≠ y))
    (hslen : poly_sanity_check.length
      ≤ targetDeg (mkDomain ω (2 ^ a) (2 ^ b) offset) false bad_trace)
    (hdenom : ∀ i, i < targetDeg (mkDomain ω (2 ^ a) (2 ^ b) offset) false bad_trace →
      polyEval denom (offset * (ω (a + b)) ^ i) ≠ 0) :
    interpAssertOk
      (interp_from_num_denom ω (polyMul denom poly_sanity_check) denom
        (mkDomain ω (2 ^ a) (2 ^ b) offset) poly_sanity_check false bad_trace)
      poly_sanity_check :=
  interp_assert_lemma ω denom poly_sanity_check a b offset bad_trace
    hcohn hcohd hnd hslen hdenom

/-- Witness for C3 at a concrete input over `K17`: the hypotheses hold and the
assertion predicate is established for the term `(X - 1) * (2 + 5X)` divided
by `X - 1`, with `bad_trace = true`. -/
theorem C3_witness :
    (polyMul [(16 : K17), 1] [2, 5] = [15, 14, 5]) ∧
    interpAssertOk
      (interp_from_num_denom cOmega (polyMul [(16 : K17), 1] [2, 5]) [16, 1]
        (mkDomain cOmega 2 2 3) [2, 5] false true) [2, 5] :=
  ⟨by decide,
    C3_interp_assert_unreachable cOmega [16, 1] [2, 5] 1 1 3 true
      (by decide) (by decide) (by decide) (by decide) (by decide)⟩

/-- Claim C4: `interp_from_num_denom` chooses the truncated-interpolation
bound `|LDE| / blowup_factor` when `evil` is set or `bad_trace` is unset and
`|LDE| / 2` when `bad_trace` is set and `evil` is not, and the returned
polynomial (of at most `target_deg` coefficients) interpolates exactly the
first `target_deg` points of the pointwise `num/denom` quotient over the LDE
coset. -/
theorem C4_interp_target_deg (ω : ℕ → F) (num denom : List F) (a b : ℕ)
    (offset : F) (poly_sanity_check : List F) (evil bad_trace : Bool)
    (hcohn : ∀ k, k < b + max a (clog2 num.length) → (ω (k + 1)) ^ 2 = ω k)
    (hcohd : ∀ k, k < b + max a (clog2 denom.length) → (ω (k + 1)) ^ 2 = ω k)
    (hnd : ((mkDomain ω (2 ^ a) (2 ^ b) offset).lde_roots_of_unity_coset.take
      (targetDeg (mkDomain ω (2 ^ a) (2 ^ b) offset) evil bad_trace)).Pairwise
        (fun x y => x ≠ y)) :
    ((evil = true ∨ bad_trace = false) →
      targetDeg (mkDomain ω (2 ^ a) (2 ^ b) offset) evil bad_trace
        = (mkDomain ω (2 ^ a) (2 ^ b) offset).lde_roots_of_unity_coset.length
          / (mkDomain ω (2 ^ a) (2 ^ b) offset).blowup_factor) ∧
    (evil = false → bad_trace = true →
      targetDeg (mkDomain ω (2 ^ a) (2 ^ b) offset) evil bad_trace
        = (mkDomain ω (2 ^ a) (2 ^ b) offset).lde_roots_of_unity_coset.length / 2) ∧
    (interp_from_num_denom ω num denom (mkDomain ω (2 ^ a) (2 ^ b) offset)
        poly_sanity_check evil bad_trace).length
      ≤ targetDeg (mkDomain ω (2 ^ a) (2 ^ b) offset) evil bad_trace ∧
    ∀ i, i < targetDeg (mkDomain ω (2 ^ a) (2 ^ b) offset) evil bad_trace →
      polyEval (interp_from_num_denom ω num denom (mkDomain ω (2 ^ a) (2 ^ b) offset)
          poly_sanity_check evil bad_trace)
        ((mkDomain ω (2 ^ a) (2 ^ b) offset).lde_roots_of_unity_coset.getD i 0)
        = polyEval num
            ((mkDomain ω (2 ^ a) (2 ^ b) offset).lde_roots_of_unity_coset.getD i 0)
          / polyEval denom
            ((mkDomain ω (2 ^ a) (2 ^ b) offset).lde_roots_of_unity_coset.getD i 0) := by
  have hspec := interp_from_num_denom_spec ω num denom a b offset poly_sanity_check
    evil bad_trace hcohn hcohd hnd
  have hlen : (mkDomain ω (2 ^ a) (2 ^ b) offset).lde_roots_of_unity_coset.length
      = 2 ^ a * 2 ^ b := mkDomain_coset_length ω a b offset
  refine ⟨?_, ?_, hspec.1, ?_⟩
  · intro h
    unfold targetDeg
    rcases h with h | h <;> subst h <;> simp
  · intro h1 h2
    subst h1; subst h2
    rfl
  · intro i hi
    have hilt : i < 2 ^ a * 2 ^ b := by
      have := targetDeg_le (mkDomain ω (2 ^ a) (2 ^ b) offset) evil bad_trace
      omega
    rw [mkDomain_coset_getD ω a b offset i hilt]
    exact hspec.2 i hi

/-- Witness for C4 at a concrete input over `K17`, exercising the
`bad_trace = true, evil = false` branch. -/
theorem C4_witness :
    targetDeg (mkDomain cOmega 2 2 3) false true = 2 ∧
    (interp_from_num_denom cOmega [(1 : K17), 2] [16, 1] (mkDomain cOmega 2 2 3)
      [] false true).length ≤ targetDeg (mkDomain cOmega 2 2 3) false true ∧
    polyEval (interp_from_num_denom cOmega [(1 : K17), 2] [16, 1]
        (mkDomain cOmega 2 2 3) [] false true)
        ((mkDomain cOmega 2 2 3).lde_roots_of_unity_coset.getD 1 0)
      = polyEval [(1 : K17), 2]
          ((mkDomain cOmega 2 2 3).lde_roots_of_unity_coset.getD 1 0)
        / polyEval [(16 : K17), 1]
          ((mkDomain cOmega 2 2 3).lde_roots_of_unity_coset.getD 1 0) :=
  ⟨by decide,
    (C4_interp_target_deg cOmega [1, 2] [16, 1] 1 1 3 [] false true
      (by decide) (by decide) (by decide)).2.2.1,
    (C4_interp_target_deg cOmega [1, 2] [16, 1] 1 1 3 [] false true
      (by decide) (by decide) (by decide)).2.2.2 1 (by decide)⟩

/-- Claim C5: in round 3 the returned `H1(z^2)` is the committed even half
evaluated at `z^2` on the honest path and the external algebraically-exact
recomputation from the OOD frame when `evil` is set, while `H2(z^2)` is the
committed odd half at `z^2` on the honest path and zero when `evil` is set. -/
theorem C5_round3_ood_evaluations (ext : Externals F RawTrace PubInput RAPCh)
    (domain : DomainM F) (public_input : PubInput) (round_1_result : Round1M F RAPCh)
    (round_2_result : Round2M F) (z : F) (rap_challenges : RAPCh)
    (boundary_coeffs transition_coeffs : List (F × F)) (evil : Bool) :
    (round_3_evaluate_polynomials_in_out_of_domain_element ext domain public_input
        round_1_result round_2_result z rap_challenges boundary_coeffs
        transition_coeffs evil).composition_poly_even_ood_evaluation
      = (if evil then
          ext.ood_exact (round_3_evaluate_polynomials_in_out_of_domain_element ext
            domain public_input round_1_result round_2_result z rap_challenges
            boundary_coeffs transition_coeffs evil).trace_ood_frame_evaluations
            domain public_input z rap_challenges boundary_coeffs transition_coeffs
        else polyEval round_2_result.composition_poly_even (z * z)) ∧
    (round_3_evaluate_polynomials_in_out_of_domain_element ext domain public_input
        round_1_result round_2_result z rap_challenges boundary_coeffs
        transition_coeffs evil).composition_poly_odd_ood_evaluation
      = (if evil then 0
         else polyEval round_2_result.composition_poly_odd (z * z)) := by
  cases evil <;>
    simp [round_3_evaluate_polynomials_in_out_of_domain_element]

/-- Claim C8: `evaluate_polynomial_on_lde_domain` returns
`domain_size * blowup_factor` evaluations, the `i`-th being the polynomial
evaluated at `offset * root^i` for the primitive root of order
`domain_size * blowup_factor` (sizes are powers of two; the root table is
coherent on the orders the FFT touches). -/
theorem C8_lde_evaluation (ω : ℕ → F) (p : List F) (a b : ℕ) (offset : F)
    (hcoh : ∀ k, k < b + max a (clog2 p.length) → (ω (k + 1)) ^ 2 = ω k) :
    (evaluate_polynomial_on_lde_domain ω p (2 ^ b) (2 ^ a) offset).length
        = 2 ^ a * 2 ^ b ∧
    ∀ i, i < 2 ^ a * 2 ^ b →
      (evaluate_polynomial_on_lde_domain ω p (2 ^ b) (2 ^ a) offset).getD i 0 =
        polyEval p (offset * (ω (a + b)) ^ i) :=
  lde_spec ω p a b offset hcoh

/-- Witness for C8 over `K17`, with a length-3 polynomial that forces the FFT
to return a denser grid than requested (stride-2 subsampling). -/
theorem C8_witness :
    (∀ k, k < 1 + max 1 (clog2 ([(1 : K17), 2, 3] : List K17).length) →
      (cOmega (k + 1)) ^ 2 = cOmega k) ∧
    (evaluate_polynomial_on_lde_domain cOmega [(1 : K17), 2, 3] 2 2 3).length = 4 ∧
    (evaluate_polynomial_on_lde_domain cOmega [(1 : K17), 2, 3] 2 2 3).getD 3 0
      = polyEval [(1 : K17), 2, 3] (3 * (cOmega 2) ^ 3) :=
  ⟨by decide,
    (C8_lde_evaluation cOmega [1, 2, 3] 1 1 3 (by decide)).1,
    (C8_lde_evaluation cOmega [1, 2, 3] 1 1 3 (by decide)).2 3 (by decide)⟩

/-- Claim C9: `prove` is deterministic — the model is a pure function of the
raw trace, the external capabilities, the public input and the two flags, so
two runs on identical inputs return identical results (the same proof or the
same error), with no retry or partial-failure behavior. -/
theorem C9_prove_deterministic (ext : Externals F RawTrace PubInput RAPCh)
    (trace : RawTrace) (public_input : PubInput) (evil bad_trace : Bool)
    (r s : Except ProvingError (StarkProofM F))
    (hr : prove ext trace public_input evil bad_trace = r)
    (hs : prove ext trace public_input evil bad_trace = s) : r = s := by
  rw [← hr, ← hs]

/-- Witness for C9: two concrete runs over `K17` coincide. -/
theorem C9_witness :
    prove cExt () () false false = prove cExt () () false false :=
  C9_prove_deterministic cExt () () false false _ _ rfl rfl

/-- Claim C10: `open_deep_composition_poly` reduces the requested index
modulo the LDE-domain length, so for every `iota_0` all returned openings —
`H1`, `H2`, and one per trace column — are taken at the single shared
in-bounds index `iota_0 % |LDE|`, and every Merkle lookup succeeds. -/
theorem C10_open_shared_index (domain : DomainM F) (round_1_result : Round1M F RAPCh)
    (round_2_result : Round2M F) (iota_0 : ℕ)
    (hpos : 0 < domain.lde_roots_of_unity_coset.length)
    (heven : round_2_result.composition_poly_even_merkle_tree.length
      = domain.lde_roots_of_unity_coset.length)
    (hodd : round_2_result.composition_poly_odd_merkle_tree.length
      = domain.lde_roots_of_unity_coset.length)
    (htrees : ∀ t ∈ round_1_result.lde_trace_merkle_trees,
      t.length = domain.lde_roots_of_unity_coset.length) :
    iota_0 % domain.lde_roots_of_unity_coset.length
        < domain.lde_roots_of_unity_coset.length ∧
    (open_deep_composition_poly domain round_1_result round_2_result
        iota_0).lde_composition_poly_even_proof
      = some ⟨iota_0 % domain.lde_roots_of_unity_coset.length⟩ ∧
    (open_deep_composition_poly domain round_1_result round_2_result
        iota_0).lde_composition_poly_odd_proof
      = some ⟨iota_0 % domain.lde_roots_of_unity_coset.length⟩ ∧
    (open_deep_composition_poly domain round_1_result round_2_result
        iota_0).lde_trace_merkle_proofs
      = round_1_result.lde_trace_merkle_trees.map
          (fun _ => some ⟨iota_0 % domain.lde_roots_of_unity_coset.length⟩) ∧
    (open_deep_composition_poly domain round_1_result round_2_result
        iota_0).lde_composition_poly_even_evaluation
      = round_2_result.lde_composition_poly_even_evaluations.getD
          (iota_0 % domain.lde_roots_of_unity_coset.length) 0 ∧
    (open_deep_composition_poly domain round_1_result round_2_result
        iota_0).lde_composition_poly_odd_evaluation
      = round_2_result.lde_composition_poly_odd_evaluations.getD
          (iota_0 % domain.lde_roots_of_unity_coset.length) 0 ∧
    (open_deep_composition_poly domain round_1_result round_2_result
        iota_0).lde_trace_evaluations
      = round_1_result.lde_trace.map
          (fun col => col.getD (iota_0 % domain.lde_roots_of_unity_coset.length) 0) := by
  have hidx : iota_0 % domain.lde_roots_of_unity_coset.length
      < domain.lde_roots_of_unity_coset.length := Nat.mod_lt _ hpos
  refine ⟨hidx, ?_, ?_, ?_, rfl, rfl, rfl⟩
  · simp only [open_deep_composition_poly, mkProof]
    rw [if_pos (by rw [heven]; exact hidx)]
  · simp only [open_deep_composition_poly, mkProof]
    rw [if_pos (by rw [hodd]; exact hidx)]
  · simp only [open_deep_composition_poly]
    refine List.map_congr_left ?_
    intro t ht
    rw [mkProof, if_pos (by rw [htrees t ht]; exact hidx)]

/-- Witness for C10 on concrete data: an out-of-range request `iota_0 = 7` on
a 4-element domain opens everything at index 3. -/
theorem C10_witness :
    (0 : ℕ) < cDomain.lde_roots_of_unity_coset.length ∧
    (open_deep_composition_poly cDomain
        (⟨[[1, 2]], [[1, 2, 3, 4]], [[1, 2, 3, 4]], [5], ()⟩ : Round1M K17 Unit)
        (⟨[7], [1, 1, 1, 1], [1, 1, 1, 1], 2, [3], [2, 2, 2, 2], [2, 2, 2, 2], 4⟩ :
          Round2M K17)
        7).lde_composition_poly_even_proof = some ⟨3⟩ :=
  ⟨by decide,
    (C10_open_shared_index cDomain
      (⟨[[1, 2]], [[1, 2, 3, 4]], [[1, 2, 3, 4]], [5], ()⟩ : Round1M K17 Unit)
      (⟨[7], [1, 1, 1, 1], [1, 1, 1, 1], 2, [3], [2, 2, 2, 2], [2, 2, 2, 2], 4⟩ :
        Round2M K17)
      7 (by decide) (by decide) (by decide) (by decide)).2.1⟩

end StarkSpec

namespace StarkSpec

variable {F : Type} [Field F] [DecidableEq F] {RawTrace PubInput RAPCh : Type}

/-- Claim C6: the round-2 section of `prove` performs exactly four transcript
batch-samples, in order — boundary alphas and betas (each sized to the number
of trace polynomials), then transition alphas and betas (each sized to the
number of transition constraints) — followed by the two composition-poly root
appends, `H1`'s root then `H2`'s root, and nothing else. -/
theorem C6_round2_transcript_order (ext : Externals F RawTrace PubInput RAPCh)
    (domain : DomainM F) (round_1_result : Round1M F RAPCh) (public_input : PubInput)
    (ts : TState F) :
    (round2Segment ext domain round_1_result public_input ts).2.2.2.log
      = ts.log
        ++ [TEvent.batchSample round_1_result.trace_polys.length,
            TEvent.batchSample round_1_result.trace_polys.length,
            TEvent.batchSample ext.context.num_transition_constraints,
            TEvent.batchSample ext.context.num_transition_constraints,
            TEvent.append (round2Segment ext domain round_1_result public_input
              ts).2.2.1.composition_poly_even_root,
            TEvent.append (round2Segment ext domain round_1_result public_input
              ts).2.2.1.composition_poly_odd_root] :=
  round2Segment_log ext domain round_1_result public_input ts

/-- Claim C7: after round 3 the out-of-domain values are appended to the
transcript in exactly the order `H1(z^2)`, `H2(z^2)`, then every entry of the
trace OOD frame row-major (rows in index order, elements left to right), and
only after all of them does round 4 sample its first challenges. -/
theorem C7_ood_append_order (ext : Externals F RawTrace PubInput RAPCh)
    (domain : DomainM F) (public_input : PubInput) (round_1_result : Round1M F RAPCh)
    (round_2_result : Round2M F) (boundary_coeffs transition_coeffs : List (F × F))
    (evil bad_trace : Bool) (ts : TState F) :
    ∃ rest,
      (round_4_compute_and_run_fri_on_the_deep_composition_polynomial ext domain
        round_1_result round_2_result
        (round3Segment ext domain public_input round_1_result round_2_result
          boundary_coeffs transition_coeffs evil ts).1
        (round3Segment ext domain public_input round_1_result round_2_result
          boundary_coeffs transition_coeffs evil ts).2.1
        (round3Segment ext domain public_input round_1_result round_2_result
          boundary_coeffs transition_coeffs evil ts).2.2 evil bad_trace).2.log
      = ts.log ++ [TEvent.sampleZ]
        ++ [TEvent.append (round3Segment ext domain public_input round_1_result
              round_2_result boundary_coeffs transition_coeffs evil
              ts).1.composition_poly_even_ood_evaluation,
            TEvent.append (round3Segment ext domain public_input round_1_result
              round_2_result boundary_coeffs transition_coeffs evil
              ts).1.composition_poly_odd_ood_evaluation]
        ++ ((List.range (round3Segment ext domain public_input round_1_result
              round_2_result boundary_coeffs transition_coeffs evil
              ts).1.trace_ood_frame_evaluations.num_rows).map
            (fun i => ((round3Segment ext domain public_input round_1_result
              round_2_result boundary_coeffs transition_coeffs evil
              ts).1.trace_ood_frame_evaluations.get_row i).map TEvent.append)).flatten
        ++ [TEvent.sampleField, TEvent.sampleField,
            TEvent.batchSample
              (ext.context.transition_offsets.length * ext.context.trace_columns)]
        ++ rest := by
  obtain ⟨rest, hrest⟩ := round_4_log ext domain round_1_result round_2_result
    (round3Segment ext domain public_input round_1_result round_2_result
      boundary_coeffs transition_coeffs evil ts).1
    (round3Segment ext domain public_input round_1_result round_2_result
      boundary_coeffs transition_coeffs evil ts).2.1
    (round3Segment ext domain public_input round_1_result round_2_result
      boundary_coeffs transition_coeffs evil ts).2.2 evil bad_trace
  refine ⟨rest, ?_⟩
  rw [hrest, round3Segment_log]

/-- Counterexample to claim C1 as stated: on the concrete valid instance
`cExt`, running with `bad_trace = true, evil = false` produces a structurally
well-formed proof that is *identical* to the honest run's — the DEEP
polynomial handed to FRI is the honest algebraic one, not the forged
truncated interpolation, so no detectable degree difference exists. -/
theorem C1_counterexample :
    (prove cExt () () false true).isOk = true ∧
    prove cExt () () false true = prove cExt () () false false :=
  ⟨by decide, by decide⟩

/-- Claim C1 (amended): with `evil = false` the DEEP polynomial handed to the
FRI commit phase is the honest algebraic combination regardless of
`bad_trace` — the truncated-interpolation forgery is returned only when
`evil = true` — so `prove` with `bad_trace = true, evil = false` still
returns a structurally well-formed proof, but one identical to the honest
path's. -/
theorem C1_amended_no_forgery_without_evil (ext : Externals F RawTrace PubInput RAPCh)
    (domain : DomainM F) (trace_polys : List (List F)) (round_2_result : Round2M F)
    (round_3_result : Round3M F) (z primitive_root gamma gamma_p : F)
    (trace_terms_gammas : List F) (trace : RawTrace) (public_input : PubInput)
    (bad_trace : Bool) :
    compute_deep_composition_poly ext domain trace_polys round_2_result round_3_result
        z primitive_root gamma gamma_p trace_terms_gammas false bad_trace
      = compute_deep_composition_poly ext domain trace_polys round_2_result
          round_3_result z primitive_root gamma gamma_p trace_terms_gammas
          false false ∧
    prove ext trace public_input false bad_trace
      = prove ext trace public_input false false :=
  ⟨rfl, rfl⟩

/-- Counterexample to claim C2 as stated: on the concrete instance `cExt`
(`trace_length = 2`, `blowup_factor = 2`), the FRI commit phase invoked in
round 4 produces `root_order = 1` layer Merkle root, not
`lde_root_order = 2`. -/
theorem C2_counterexample :
    (prove cExt () () false false).map (fun pr => pr.fri_layers_merkle_roots.length)
        = Except.ok cDomain.root_order ∧
    cDomain.root_order = 1 ∧ cDomain.lde_root_order = 2 :=
  ⟨by decide, by decide, by decide⟩

/-- Claim C2 (amended): round 4 invokes the FRI commit phase with
`domain.root_order = log2(trace_length)` layers (not `lde_root_order`), so
the number of FRI layer Merkle roots equals `root_order`; and whenever the
DEEP polynomial has at most `2 ^ root_order` coefficients the final folded
polynomial is a constant (length at most one). -/
theorem C2_fri_layer_count (ext : Externals F RawTrace PubInput RAPCh)
    (domain : DomainM F) (round_1_result : Round1M F RAPCh)
    (round_2_result : Round2M F) (round_3_result : Round3M F) (z : F)
    (ts : TState F) (evil bad_trace : Bool) (h1 : 1 ≤ domain.root_order) :
    (round_4_compute_and_run_fri_on_the_deep_composition_polynomial ext domain
        round_1_result round_2_result round_3_result z ts evil
        bad_trace).1.fri_layers_merkle_roots.length = domain.root_order ∧
    ∀ (p dom2 : List F) (ts2 : TState F) (beta : F),
      p.length ≤ 2 ^ domain.root_order →
      (foldPoly (friLoop ext (domain.root_order - 1) p dom2 ts2).1 beta).length ≤ 1 := by
  constructor
  · simp only [round_4_compute_and_run_fri_on_the_deep_composition_polynomial]
    rw [friCommitPhase_roots_length]
    omega
  · intro p dom2 ts2 beta hp
    have hexp : domain.root_order - 1 + 1 = domain.root_order := by omega
    have hloop := friLoop_poly_length ext (domain.root_order - 1) 1 p dom2 ts2
      (by rw [hexp]; exact hp)
    rw [foldPoly_length]
    have h2 : (2 : ℕ) ^ 1 = 2 := by norm_num
    omega

/-- Witness for the amended C2 on concrete data over `K17`: one layer root
for `root_order = 1`, and the final fold of a 2-coefficient polynomial is
constant. -/
theorem C2_witness :
    1 ≤ cDomain.root_order ∧
    (round_4_compute_and_run_fri_on_the_deep_composition_polynomial cExt cDomain
        (⟨[[1, 2]], [[1, 2, 3, 4]], [[1, 2, 3, 4]], [5], ()⟩ : Round1M K17 Unit)
        (⟨[7], [1, 1, 1, 1], [1, 1, 1, 1], 2, [3], [2, 2, 2, 2], [2, 2, 2, 2], 4⟩ :
          Round2M K17)
        (⟨⟨[1, 2], 1⟩, 5, 6⟩ : Round3M K17) 7 ⟨[]⟩ false
        false).1.fri_layers_merkle_roots.length = cDomain.root_order ∧
    (foldPoly (friLoop cExt (cDomain.root_order - 1) [(1 : K17), 2] [] ⟨[]⟩).1
      0).length ≤ 1 :=
  ⟨by decide,
    (C2_fri_layer_count cExt cDomain
      (⟨[[1, 2]], [[1, 2, 3, 4]], [[1, 2, 3, 4]], [5], ()⟩ : Round1M K17 Unit)
      (⟨[7], [1, 1, 1, 1], [1, 1, 1, 1], 2, [3], [2, 2, 2, 2], [2, 2, 2, 2], 4⟩ :
        Round2M K17)
      (⟨⟨[1, 2], 1⟩, 5, 6⟩ : Round3M K17) 7 ⟨[]⟩ false false (by decide)).1,
    (C2_fri_layer_count cExt cDomain
      (⟨[[1, 2]], [[1, 2, 3, 4]], [[1, 2, 3, 4]], [5], ()⟩ : Round1M K17 Unit)
      (⟨[7], [1, 1, 1, 1], [1, 1, 1, 1], 2, [3], [2, 2, 2, 2], [2, 2, 2, 2], 4⟩ :
        Round2M K17)
      (⟨⟨[1, 2], 1⟩, 5, 6⟩ : Round3M K17) 7 ⟨[]⟩ false false (by decide)).2
      [1, 2] [] ⟨[]⟩ 0 (by decide)⟩

end StarkSpec
